import Mathlib

/-!
Verification of the `mcp_superiorapis_remote` gateway against its design
specification.

The repository contains three near-duplicate protocol front-ends:

* `src/mcp_superiorapis_remote/mcp_server_http.py`  (the "HTTP" server)
* `src/mcp_superiorapis_remote/mcp_server_sse.py`   (the "SSE" server)
* `dify_mcp_standalone.py`                          (the "Dify" server)

Each front-end carries its own copy of the schema flattener
(`flatten_enum`), the catalog fetcher (`fetch_superior_apis_tools` /
`fetch_superior_tools`), the tool invoker (`call_superior_api_tool` /
`call_superior_tool`) and the credential extractor (`extract_token`).
This file embeds the value-level behaviour of those functions over a model
of Python's JSON-compatible data (dicts, lists, strings, ints, bools,
None) and proves or refutes the frozen claims about them.

Python dictionaries are modelled as association lists with distinct keys
(`Json.obj`); operations (`getKey`, `setKey`, `eraseKey`) mirror Python
dict reads, in-place updates (which keep the key's position, appending new
keys at the end) and deletions.  Operations that raise in Python are
modelled in `Except PyErr`.
-/

/-- Python exception kinds that the modelled code can raise. -/
inductive PyErr where
  | typeError
  | attributeError
  | keyError
deriving Repr, DecidableEq

/-- A JSON-compatible Python value: `None`, `bool`, `int`, `str`, `list`,
`dict`.  (The repository's schemas never require floats.) -/
inductive Json where
  | null
  | bool (b : Bool)
  | num (n : Int)
  | str (s : String)
  | arr (elems : List Json)
  | obj (members : List (String × Json))
deriving Repr, Inhabited

namespace Json

/-- Python `d.get(k)` / `d[k]` on the member list of a dict: value of the
first entry with the given key. -/
def getKey : List (String × Json) → String → Option Json
  | [], _ => none
  | (k', v) :: t, k => if k' = k then some v else getKey t k

/-- Python `d[k] = v` on the member list of a dict: replace the value of an
existing key in place (keeping its position), else append the new key at
the end — Python dicts preserve insertion order. -/
def setKey : List (String × Json) → String → Json → List (String × Json)
  | [], k, v => [(k, v)]
  | (k', v') :: t, k, v => if k' = k then (k, v) :: t else (k', v') :: setKey t k v

/-- Python `del d[k]` / `d.pop(k, None)` on the member list of a dict. -/
def eraseKey : List (String × Json) → String → List (String × Json)
  | [], _ => []
  | (k', v') :: t, k => if k' = k then t else (k', v') :: eraseKey t k

/-- Python `k in d` for a dict. -/
def hasKey (l : List (String × Json)) (k : String) : Bool :=
  (getKey l k).isSome

/-- Keys of a dict, in order. -/
def keysOf (l : List (String × Json)) : List String :=
  l.map Prod.fst

/-- A key list with no duplicates (always true of a Python dict). -/
def nodupKeys : List String → Bool
  | [] => true
  | k :: t => (!(t.contains k)) && nodupKeys t

mutual
/-- Well-formedness of a value as the image of actual Python data: every
dict has pairwise-distinct keys.  Always true of values produced by
`json.loads` or literal Python dicts. -/
def wf : Json → Bool
  | .null => true
  | .bool _ => true
  | .num _ => true
  | .str _ => true
  | .arr es => wfList es
  | .obj ms => nodupKeys (keysOf ms) && wfMembers ms

def wfList : List Json → Bool
  | [] => true
  | e :: es => wf e && wfList es

def wfMembers : List (String × Json) → Bool
  | [] => true
  | (_, v) :: ms => wf v && wfMembers ms
end

/-- Python `x == "s"` for a string literal `"s"`: true only for equal
strings (Python equality between a `str` and any non-`str` JSON value is
`False`). -/
def eqStr (s : String) : Json → Bool
  | .str t => s = t
  | _ => false

/-- Python substring test `key in s` for strings. -/
def substrB (key s : String) : Bool :=
  decide (key.data <:+: s.data)

mutual
/-- Python `repr` of a JSON-compatible value (strings are quoted; the
sources only ever render escape-free strings, so no escaping is modelled). -/
def pyRepr : Json → String
  | .null => "None"
  | .bool true => "True"
  | .bool false => "False"
  | .num n => toString n
  | .str s => "'" ++ s ++ "'"
  | .arr es => "[" ++ reprList es ++ "]"
  | .obj ms => "\x7b" ++ reprMembers ms ++ "\x7d"

def reprList : List Json → String
  | [] => ""
  | [e] => pyRepr e
  | e :: es => pyRepr e ++ ", " ++ reprList es

def reprMembers : List (String × Json) → String
  | [] => ""
  | [(k, v)] => "'" ++ k ++ "': " ++ pyRepr v
  | (k, v) :: ms => "'" ++ k ++ "': " ++ pyRepr v ++ ", " ++ reprMembers ms
end

/-- Python `str` / f-string rendering of a JSON-compatible value: like
`repr` except that a string renders as itself. -/
def pyStr : Json → String
  | .str s => s
  | j => pyRepr j

/-- Python `", ".join(xs)`. -/
def commaJoin (xs : List String) : String :=
  String.intercalate ", " xs

/-- Helper for `pyReplace` with an empty pattern: Python inserts the
replacement before every character and at the end. -/
def replEmptyPat (rep : List Char) : List Char → List Char
  | [] => rep
  | c :: t => rep ++ c :: replEmptyPat rep t

/-- Fuel-driven worker for `pyReplace`: replace non-overlapping occurrences
left to right (each step consumes at least one character, so fuel equal to
the input length suffices). -/
def replGo (pat rep : List Char) : Nat → List Char → List Char
  | 0, s => s
  | _ + 1, [] => []
  | fuel + 1, c :: rest =>
    if pat.isPrefixOf (c :: rest) then rep ++ replGo pat rep fuel ((c :: rest).drop pat.length)
    else c :: replGo pat rep fuel rest

/-- Python `s.replace(pat, rep)` (all non-overlapping occurrences, left to
right), as a structurally computable function. -/
def pyReplace (s pat rep : String) : String :=
  if pat.data.isEmpty then ⟨replEmptyPat rep.data s.data⟩
  else ⟨replGo pat.data rep.data s.data.length s.data⟩

/-- Python `s.startswith(pre)`. -/
def pyStartsWith (pre s : String) : Bool :=
  pre.data.isPrefixOf s.data

/-- Python `s[n:]`. -/
def pyDrop (n : Nat) (s : String) : String :=
  ⟨s.data.drop n⟩

end Json

namespace Json

theorem getKey_sizeOf {l : List (String × Json)} {k : String} {v : Json}
    (h : getKey l k = some v) : sizeOf v < sizeOf l := by
  induction l with
  | nil => simp [getKey] at h
  | cons hd t ih =>
    obtain ⟨k', v'⟩ := hd
    simp only [getKey] at h
    split at h
    · cases h; simp; omega
    · have := ih h; simp; omega

theorem eraseKey_sizeOf_le (l : List (String × Json)) (k : String) :
    sizeOf (eraseKey l k) ≤ sizeOf l := by
  induction l with
  | nil => simp [eraseKey]
  | cons hd t ih =>
    obtain ⟨k', v'⟩ := hd
    simp only [eraseKey]
    split
    · simp
    · simp; omega

end Json

namespace Json

/-- The enum rendering of `mcp_server_sse.flatten_enum` (line 127):
`", ".join([f"{v}" for v in enum_values])`.  Iterating a Python value
yields its elements (list), its keys (dict) or its characters (str);
anything else raises `TypeError`. -/
def joinEnumSSE : Json → Except PyErr String
  | .arr es => .ok (commaJoin (es.map pyStr))
  | .obj ms => .ok (commaJoin (ms.map Prod.fst))
  | .str s => .ok (commaJoin (s.data.map String.singleton))
  | _ => .error .typeError

/-- Root-level enum folding of `mcp_server_sse.flatten_enum`
(lines 124-129): if the dict has an `enum` key, render it, append
`" | Enum: " ++ rendering` to the existing `description` (default `""`;
a non-string description raises `TypeError` at the `+`), and delete
`enum`. -/
def sseRootFold (kvs : List (String × Json)) : Except PyErr (List (String × Json)) :=
  match getKey kvs "enum" with
  | none => .ok kvs
  | some ev =>
    match joinEnumSSE ev with
    | .error e => .error e
    | .ok joined =>
      match (getKey kvs "description").getD (.str "") with
      | .str cd =>
          .ok (eraseKey (setKey kvs "description" (.str (cd ++ " | Enum: " ++ joined))) "enum")
      | _ => .error .typeError

mutual
/-- Value-level behaviour of `mcp_server_sse.flatten_enum`
(mcp_server_sse.py lines 105-140): non-dict input is returned unchanged;
for a dict, fold a root `enum` into `description`, then flatten every
value of `properties` (a non-dict `properties` raises at `.items()`),
then flatten `items`.  The `properties` and `items` lookups read the
original dict: the root fold only rewrites the `description` and `enum`
entries, so those lookups are unchanged by it. -/
def flattenSSE : Json → Except PyErr Json
  | .obj kvs =>
    match sseRootFold kvs with
    | .error e => .error e
    | .ok kvs1 =>
      match hp : getKey kvs "properties" with
      | some (.obj pkvs) =>
        (match flattenSSEProps pkvs with
         | .error e => .error e
         | .ok pkvs1 =>
           let kvs2 := setKey kvs1 "properties" (.obj pkvs1)
           match hi : getKey kvs "items" with
           | some it =>
             (match flattenSSE it with
              | .error e => .error e
              | .ok it1 => .ok (.obj (setKey kvs2 "items" it1)))
           | none => .ok (.obj kvs2))
      | some _ => .error .attributeError
      | none =>
        match hi : getKey kvs "items" with
        | some it =>
          (match flattenSSE it with
           | .error e => .error e
           | .ok it1 => .ok (.obj (setKey kvs1 "items" it1)))
        | none => .ok (.obj kvs1)
  | j => .ok j
termination_by j => sizeOf j
decreasing_by
  · have := getKey_sizeOf hp; simp at this ⊢; omega
  · have := getKey_sizeOf hi; simp at this ⊢; omega
  · have := getKey_sizeOf hi; simp at this ⊢; omega

/-- The `properties` loop of `mcp_server_sse.flatten_enum`
(lines 132-134): replace each property value by its flattening, keeping
keys and order. -/
def flattenSSEProps : List (String × Json) → Except PyErr (List (String × Json))
  | [] => .ok []
  | (k, v) :: t =>
    match flattenSSE v with
    | .error e => .error e
    | .ok v1 =>
      match flattenSSEProps t with
      | .error e => .error e
      | .ok t1 => .ok ((k, v1) :: t1)
termination_by l => sizeOf l + 1
decreasing_by
  · simp; omega
  · simp
end

end Json

namespace Json

theorem getD_obj_sizeOf {pkv : List (String × Json)} {k : String} {ikv : List (String × Json)}
    (h : (getKey pkv k).getD (.obj []) = .obj ikv) : sizeOf ikv ≤ sizeOf pkv := by
  rcases hg : getKey pkv k with _ | its
  · rw [hg] at h
    simp at h
    subst h
    cases pkv <;> simp <;> omega
  · rw [hg] at h
    simp at h
    subst h
    have := getKey_sizeOf hg
    simp at this
    omega

/-- Python `prop.get('type') == "t"` as used by `mcp_server_http.flatten_enum`:
equality of the `type` entry with a string literal (false for a missing key
or a non-string value, as in Python). -/
def typeIs (pkv : List (String × Json)) (t : String) : Bool :=
  match getKey pkv "type" with
  | some (.str u) => u = t
  | _ => false

/-- The enum-to-description fold shared by the two enum blocks of
`mcp_server_http.flatten_enum` (lines 378-386 and 394-402): render a dict
enum as `"k: v"` pairs after `" | Enum: "`, a list enum as comma-joined
values after `" | 選項: "`, and append to the `description` f-string-style
(`str()` of the old value, so never raising); any other enum value leaves
the description unchanged. -/
def foldEnumDesc (pkv : List (String × Json)) (ev : Json) : List (String × Json) :=
  let od := (getKey pkv "description").getD (.str "")
  match ev with
  | .obj evkv =>
      setKey pkv "description"
        (.str (pyStr od ++ " | Enum: " ++ commaJoin (evkv.map (fun kv => kv.1 ++ ": " ++ pyStr kv.2))))
  | .arr evs =>
      setKey pkv "description" (.str (pyStr od ++ " | 選項: " ++ commaJoin (evs.map pyStr)))
  | _ => pkv

/-- The property-level enum block of `mcp_server_http.flatten_enum`
(lines 393-404): if the property has an `enum` key, fold it into the
description and pop it. -/
def foldEnumProp (pkv : List (String × Json)) : List (String × Json) :=
  match getKey pkv "enum" with
  | some ev => eraseKey (foldEnumDesc pkv ev) "enum"
  | none => pkv

mutual
/-- Value-level behaviour of `mcp_server_http.flatten_enum`
(mcp_server_http.py lines 359-406): non-dict input unchanged; for a dict,
each value of `properties` (default `{}`; `.items()` on a non-dict raises)
is processed by `processPropHTTP`.  Keys outside `properties` — including
a root-level `enum` — are untouched. -/
def flattenHTTP : Json → Except PyErr Json
  | .obj kvs =>
    match hp : getKey kvs "properties" with
    | none => .ok (.obj kvs)
    | some (.obj pkvs) =>
      (match processPropsHTTP pkvs with
       | .error e => .error e
       | .ok pkvs1 => .ok (.obj (setKey kvs "properties" (.obj pkvs1))))
    | some _ => .error .attributeError
  | j => .ok j
termination_by j => 2 * sizeOf j
decreasing_by
  · have := getKey_sizeOf hp; simp at this ⊢; omega

/-- The `properties` loop of `mcp_server_http.flatten_enum`
(lines 371-404), processing each property in order. -/
def processPropsHTTP : List (String × Json) → Except PyErr (List (String × Json))
  | [] => .ok []
  | (k, p) :: t =>
    match processPropHTTP p with
    | .error e => .error e
    | .ok p1 =>
      match processPropsHTTP t with
      | .error e => .error e
      | .ok t1 => .ok ((k, p1) :: t1)
termination_by l => 2 * sizeOf l + 1
decreasing_by
  · simp; omega
  · simp

/-- One iteration of the `properties` loop of
`mcp_server_http.flatten_enum` on the property value `prop`:

* non-dict property: `prop.get` raises `AttributeError`;
* `type == "object"`: the property is replaced by `flatten_enum(prop)`
  (the source then runs the shared enum block on the stale `prop` object,
  which the replacement just unlinked from `schema['properties']`, so that
  mutation is invisible in the result — in particular a root `enum` of an
  object-typed property survives);
* `type == "array"`: `items = prop.get('items', {})`; an `enum` key of a
  dict `items` is folded into the property's description and popped
  (`'enum' in items` raises `TypeError` for non-container `items`, and
  `items['enum']` raises for a list or string containing `"enum"`); a dict
  `items` is then replaced by its flattening (added as `{}` when the
  property had no `items`); finally the shared enum block runs on the
  property itself;
* any other `type`: only the shared enum block runs. -/
def processPropHTTP : Json → Except PyErr Json
  | .obj pkv =>
    if typeIs pkv "object" then flattenHTTP (.obj pkv)
    else if typeIs pkv "array" then
      match hi : (getKey pkv "items").getD (.obj []) with
      | .obj ikv =>
        (match getKey ikv "enum" with
         | some ev =>
           (match flattenHTTP (.obj (eraseKey ikv "enum")) with
            | .error e => .error e
            | .ok itf => .ok (.obj (foldEnumProp (setKey (foldEnumDesc pkv ev) "items" itf))))
         | none =>
           (match flattenHTTP (.obj ikv) with
            | .error e => .error e
            | .ok itf => .ok (.obj (foldEnumProp (setKey pkv "items" itf)))))
      | .arr es => if es.any (eqStr "enum") then .error .typeError else .ok (.obj (foldEnumProp pkv))
      | .str s => if substrB "enum" s then .error .typeError else .ok (.obj (foldEnumProp pkv))
      | _ => .error .typeError
    else .ok (.obj (foldEnumProp pkv))
  | _ => .error .attributeError
termination_by p => 2 * sizeOf p + 1
decreasing_by
  · simp
  · have h1 := getD_obj_sizeOf hi
    have h2 := eraseKey_sizeOf_le ikv "enum"
    simp at h1 h2 ⊢
    omega
  · have h1 := getD_obj_sizeOf hi
    simp at h1 ⊢
    omega
end

end Json

namespace Json

theorem getKey_setKey_same (l : List (String × Json)) (k : String) (v : Json) :
    getKey (setKey l k v) k = some v := by
  induction l with
  | nil => simp [setKey, getKey]
  | cons hd t ih =>
    obtain ⟨k', v'⟩ := hd
    simp only [setKey]
    split
    · simp [getKey]
    · simpa [getKey, *] using ih

theorem getKey_setKey_ne (l : List (String × Json)) {k k' : String} (v : Json)
    (h : k' ≠ k) : getKey (setKey l k v) k' = getKey l k' := by
  induction l with
  | nil => simp [setKey, getKey, Ne.symm h]
  | cons hd t ih =>
    obtain ⟨k₀, v₀⟩ := hd
    simp only [setKey]
    split
    · subst k₀
      simp [getKey, Ne.symm h]
    · simp only [getKey, ih]

theorem getKey_eraseKey_ne (l : List (String × Json)) {k k' : String}
    (h : k' ≠ k) : getKey (eraseKey l k) k' = getKey l k' := by
  induction l with
  | nil => simp [eraseKey]
  | cons hd t ih =>
    obtain ⟨k₀, v₀⟩ := hd
    simp only [eraseKey]
    split
    · subst k₀
      simp [getKey, Ne.symm h]
    · simp only [getKey, ih]

theorem getKey_eq_none_of_not_contains {l : List (String × Json)} {k : String}
    (h : (keysOf l).contains k = false) : getKey l k = none := by
  induction l with
  | nil => simp [getKey]
  | cons hd t ih =>
    obtain ⟨k₀, v₀⟩ := hd
    simp only [keysOf, List.map_cons, List.contains_cons, Bool.or_eq_false_iff] at h
    simp only [getKey]
    split
    · simp_all
    · exact ih h.2

theorem getKey_eraseKey_same (l : List (String × Json)) (k : String)
    (h : nodupKeys (keysOf l) = true) : getKey (eraseKey l k) k = none := by
  induction l with
  | nil => simp [eraseKey, getKey]
  | cons hd t ih =>
    obtain ⟨k₀, v₀⟩ := hd
    simp only [keysOf, List.map_cons, nodupKeys, Bool.and_eq_true, Bool.not_eq_true'] at h
    simp only [eraseKey]
    split
    · subst k₀
      exact getKey_eq_none_of_not_contains h.1
    · simp only [getKey]
      split
      · simp_all
      · exact ih h.2

theorem setKey_self {l : List (String × Json)} {k : String} {v : Json}
    (h : getKey l k = some v) : setKey l k v = l := by
  induction l with
  | nil => simp [getKey] at h
  | cons hd t ih =>
    obtain ⟨k₀, v₀⟩ := hd
    simp only [getKey] at h
    simp only [setKey]
    split at h
    · cases h
      simp_all
    · simp_all [ih h]

end Json

namespace Json

theorem nodupKeys_iff (ks : List String) : nodupKeys ks = true ↔ ks.Nodup := by
  induction ks with
  | nil => simp [nodupKeys]
  | cons k t ih =>
    simp [nodupKeys, ih, List.nodup_cons]

theorem mem_keysOf_setKey (l : List (String × Json)) {k k' : String} (v : Json)
    (h : k' ≠ k) : k' ∈ keysOf (setKey l k v) ↔ k' ∈ keysOf l := by
  induction l with
  | nil => simp [setKey, keysOf, h]
  | cons hd t ih =>
    obtain ⟨k₀, v₀⟩ := hd
    simp only [setKey]
    split
    · subst k₀
      simp [keysOf]
    · simp only [keysOf, List.map_cons, List.mem_cons] at *
      rw [ih]

theorem eraseKey_sublist (l : List (String × Json)) (k : String) :
    (eraseKey l k).Sublist l := by
  induction l with
  | nil => simp [eraseKey]
  | cons hd t ih =>
    obtain ⟨k₀, v₀⟩ := hd
    simp only [eraseKey]
    split
    · exact List.sublist_cons_self _ _
    · exact List.Sublist.cons₂ _ ih

theorem nodupKeys_setKey (l : List (String × Json)) (k : String) (v : Json)
    (h : nodupKeys (keysOf l) = true) : nodupKeys (keysOf (setKey l k v)) = true := by
  rw [nodupKeys_iff] at h ⊢
  induction l with
  | nil => simp [setKey, keysOf]
  | cons hd t ih =>
    obtain ⟨k₀, v₀⟩ := hd
    simp only [keysOf, List.map_cons, List.nodup_cons] at h
    simp only [setKey]
    split
    · subst k₀
      simpa [keysOf, List.nodup_cons] using h
    · rename_i hne
      simp only [keysOf, List.map_cons, List.nodup_cons]
      refine ⟨?_, ih h.2⟩
      have := @mem_keysOf_setKey t k k₀ v hne
      simp only [keysOf] at this
      rw [this]
      exact h.1

theorem nodupKeys_eraseKey (l : List (String × Json)) (k : String)
    (h : nodupKeys (keysOf l) = true) : nodupKeys (keysOf (eraseKey l k)) = true := by
  rw [nodupKeys_iff] at h ⊢
  exact List.Nodup.sublist (List.Sublist.map Prod.fst (eraseKey_sublist l k)) h

theorem getKey_mem {l : List (String × Json)} {k : String} {v : Json}
    (h : getKey l k = some v) : (k, v) ∈ l := by
  induction l with
  | nil => simp [getKey] at h
  | cons hd t ih =>
    obtain ⟨k₀, v₀⟩ := hd
    simp only [getKey] at h
    split at h
    · cases h
      simp_all
    · simp [ih h]

theorem wfMembers_mem {l : List (String × Json)} (h : wfMembers l = true)
    {k : String} {v : Json} (hm : (k, v) ∈ l) : wf v = true := by
  induction l with
  | nil => simp at hm
  | cons hd t ih =>
    obtain ⟨k₀, v₀⟩ := hd
    simp only [wfMembers, Bool.and_eq_true] at h
    rcases List.mem_cons.mp hm with h1 | h2
    · cases h1
      exact h.1
    · exact ih h.2 h2

theorem wfMembers_eraseKey (l : List (String × Json)) (k : String)
    (h : wfMembers l = true) : wfMembers (eraseKey l k) = true := by
  induction l with
  | nil => simp [eraseKey, wfMembers]
  | cons hd t ih =>
    obtain ⟨k₀, v₀⟩ := hd
    simp only [wfMembers, Bool.and_eq_true] at h
    simp only [eraseKey]
    split
    · exact h.2
    · simp only [wfMembers, Bool.and_eq_true]
      exact ⟨h.1, ih h.2⟩

theorem wf_of_getKey {ms : List (String × Json)} {k : String} {v : Json}
    (hwf : wf (.obj ms) = true) (h : getKey ms k = some v) : wf v = true := by
  simp only [wf, Bool.and_eq_true] at hwf
  exact wfMembers_mem hwf.2 (getKey_mem h)

end Json

namespace Json

theorem sseRootFold_of_no_enum {kvs : List (String × Json)}
    (h : getKey kvs "enum" = none) : sseRootFold kvs = .ok kvs := by
  simp [sseRootFold, h]

theorem sseRootFold_enum_none {kvs kvs1 : List (String × Json)}
    (hn : nodupKeys (keysOf kvs) = true)
    (h : sseRootFold kvs = .ok kvs1) : getKey kvs1 "enum" = none := by
  unfold sseRootFold at h
  split at h
  · cases h
    assumption
  · split at h
    · simp at h
    · split at h
      · cases h
        exact getKey_eraseKey_same _ _ (nodupKeys_setKey _ _ _ hn)
      · simp at h

theorem sseRootFold_getKey_other {kvs kvs1 : List (String × Json)}
    (h : sseRootFold kvs = .ok kvs1) {k : String}
    (h1 : k ≠ "enum") (h2 : k ≠ "description") : getKey kvs1 k = getKey kvs k := by
  unfold sseRootFold at h
  split at h
  · cases h; rfl
  · split at h
    · simp at h
    · split at h
      · cases h
        rw [getKey_eraseKey_ne _ h1, getKey_setKey_ne _ _ h2]
      · simp at h

theorem flattenSSE_idem_aux :
    ∀ n : Nat,
      (∀ s t : Json, sizeOf s ≤ n → wf s = true → flattenSSE s = .ok t →
        flattenSSE t = .ok t) ∧
      (∀ l l1 : List (String × Json), sizeOf l ≤ n → wfMembers l = true →
        flattenSSEProps l = .ok l1 → flattenSSEProps l1 = .ok l1) := by
  intro n
  induction n using Nat.strong_induction_on with
  | _ n ih =>
  constructor
  · intro s t hsz hwf h
    match s with
    | .null => simp only [flattenSSE] at h; cases h; simp [flattenSSE]
    | .bool b => simp only [flattenSSE] at h; cases h; simp [flattenSSE]
    | .num m => simp only [flattenSSE] at h; cases h; simp [flattenSSE]
    | .str sv => simp only [flattenSSE] at h; cases h; simp [flattenSSE]
    | .arr es => simp only [flattenSSE] at h; cases h; simp [flattenSSE]
    | .obj kvs =>
      simp only [wf, Bool.and_eq_true] at hwf
      rw [flattenSSE] at h
      cases hro : sseRootFold kvs with
      | error e => rw [hro] at h; simp at h
      | ok kvs1 =>
        rw [hro] at h
        simp only [] at h
        have henum1 : getKey kvs1 "enum" = none := sseRootFold_enum_none hwf.1 hro
        cases hp : getKey kvs "properties" with
        | none =>
          rw [hp] at h
          simp only [] at h
          have hp1 : getKey kvs1 "properties" = none := by
            rw [sseRootFold_getKey_other hro (by decide) (by decide)]; exact hp
          cases hi : getKey kvs "items" with
          | none =>
            rw [hi] at h
            simp only [Except.ok.injEq] at h
            subst h
            have hi1 : getKey kvs1 "items" = none := by
              rw [sseRootFold_getKey_other hro (by decide) (by decide)]; exact hi
            rw [flattenSSE, sseRootFold_of_no_enum henum1, hp1, hi1]
          | some it =>
            rw [hi] at h
            simp only [] at h
            cases hfi : flattenSSE it with
            | error e => rw [hfi] at h; simp at h
            | ok it1 =>
              rw [hfi] at h
              simp only [Except.ok.injEq] at h
              subst h
              have hsz2 : sizeOf it < n := by
                have := getKey_sizeOf hi
                simp at hsz
                omega
              have hwfit : wf it = true :=
                wf_of_getKey (by simp only [wf, Bool.and_eq_true]; exact hwf) hi
              have hidem : flattenSSE it1 = .ok it1 :=
                (ih _ hsz2).1 it it1 le_rfl hwfit hfi
              have he3 : getKey (setKey kvs1 "items" it1) "enum" = none := by
                rw [getKey_setKey_ne _ _ (by decide)]; exact henum1
              have hp3 : getKey (setKey kvs1 "items" it1) "properties" = none := by
                rw [getKey_setKey_ne _ _ (by decide)]; exact hp1
              have hi3 : getKey (setKey kvs1 "items" it1) "items" = some it1 :=
                getKey_setKey_same _ _ _
              rw [flattenSSE, sseRootFold_of_no_enum he3]
              simp only []
              rw [hp3]
              simp only []
              rw [hi3]
              simp only []
              rw [hidem]
              simp only []
              rw [setKey_self hi3]
        | some pv =>
          rw [hp] at h
          cases pv with
          | null => simp at h
          | bool b2 => simp at h
          | num n2 => simp at h
          | str s2 => simp at h
          | arr es2 => simp at h
          | obj pkvs =>
            simp only [] at h
            cases hfp : flattenSSEProps pkvs with
            | error e => rw [hfp] at h; simp at h
            | ok pkvs1 =>
              rw [hfp] at h
              simp only [] at h
              have hszp : sizeOf pkvs < n := by
                have := getKey_sizeOf hp
                simp at this hsz
                omega
              have hwfp : wfMembers pkvs = true := by
                have := wf_of_getKey
                  (by simp only [wf, Bool.and_eq_true]; exact hwf) hp
                simp only [wf, Bool.and_eq_true] at this
                exact this.2
              have hidemp : flattenSSEProps pkvs1 = .ok pkvs1 :=
                (ih _ hszp).2 pkvs pkvs1 le_rfl hwfp hfp
              cases hi : getKey kvs "items" with
              | none =>
                rw [hi] at h
                simp only [Except.ok.injEq] at h
                subst h
                have he2 : getKey (setKey kvs1 "properties" (.obj pkvs1)) "enum" = none := by
                  rw [getKey_setKey_ne _ _ (by decide)]; exact henum1
                have hp2 : getKey (setKey kvs1 "properties" (.obj pkvs1)) "properties" =
                    some (.obj pkvs1) := getKey_setKey_same _ _ _
                have hi2 : getKey (setKey kvs1 "properties" (.obj pkvs1)) "items" = none := by
                  rw [getKey_setKey_ne _ _ (by decide),
                    sseRootFold_getKey_other hro (by decide) (by decide)]
                  exact hi
                rw [flattenSSE, sseRootFold_of_no_enum he2]
                simp only []
                rw [hp2]
                simp only []
                rw [hidemp]
                simp only []
                rw [hi2]
                simp only []
                rw [setKey_self hp2]
              | some it =>
                rw [hi] at h
                simp only [] at h
                cases hfi : flattenSSE it with
                | error e => rw [hfi] at h; simp at h
                | ok it1 =>
                  rw [hfi] at h
                  simp only [Except.ok.injEq] at h
                  subst h
                  have hsz2 : sizeOf it < n := by
                    have := getKey_sizeOf hi
                    simp at hsz
                    omega
                  have hwfit : wf it = true :=
                    wf_of_getKey (by simp only [wf, Bool.and_eq_true]; exact hwf) hi
                  have hidem : flattenSSE it1 = .ok it1 :=
                    (ih _ hsz2).1 it it1 le_rfl hwfit hfi
                  have he3 : getKey (setKey (setKey kvs1 "properties" (.obj pkvs1))
                      "items" it1) "enum" = none := by
                    rw [getKey_setKey_ne _ _ (by decide),
                      getKey_setKey_ne _ _ (by decide)]
                    exact henum1
                  have hp3 : getKey (setKey (setKey kvs1 "properties" (.obj pkvs1))
                      "items" it1) "properties" = some (.obj pkvs1) := by
                    rw [getKey_setKey_ne _ _ (by decide)]
                    exact getKey_setKey_same _ _ _
                  have hi3 : getKey (setKey (setKey kvs1 "properties" (.obj pkvs1))
                      "items" it1) "items" = some it1 := getKey_setKey_same _ _ _
                  rw [flattenSSE, sseRootFold_of_no_enum he3]
                  simp only []
                  rw [hp3]
                  simp only []
                  rw [hidemp]
                  simp only []
                  rw [hi3]
                  simp only []
                  rw [hidem]
                  simp only []
                  rw [setKey_self hp3, setKey_self hi3]
  · intro l l1 hsz hwf h
    match l with
    | [] =>
      simp only [flattenSSEProps] at h
      cases h
      simp [flattenSSEProps]
    | (k, v) :: t =>
      simp only [wfMembers, Bool.and_eq_true] at hwf
      rw [flattenSSEProps] at h
      cases hfv : flattenSSE v with
      | error e => rw [hfv] at h; simp at h
      | ok v1 =>
        rw [hfv] at h
        simp only [] at h
        cases hft : flattenSSEProps t with
        | error e => rw [hft] at h; simp at h
        | ok t1 =>
          rw [hft] at h
          simp only [Except.ok.injEq] at h
          subst h
          have hszv : sizeOf v < n := by simp at hsz; omega
          have hszt : sizeOf t < n := by simp at hsz; omega
          have hv : flattenSSE v1 = .ok v1 := (ih _ hszv).1 v v1 le_rfl hwf.1 hfv
          have ht : flattenSSEProps t1 = .ok t1 := (ih _ hszt).2 t t1 le_rfl hwf.2 hft
          rw [flattenSSEProps, hv, ht]

end Json

namespace Json

theorem foldEnumDesc_getKey_ne (pkv : List (String × Json)) (ev : Json) {k : String}
    (h : k ≠ "description") : getKey (foldEnumDesc pkv ev) k = getKey pkv k := by
  unfold foldEnumDesc
  cases ev <;> simp only [] <;> first
    | rfl
    | rw [getKey_setKey_ne _ _ h]

theorem nodupKeys_foldEnumDesc (pkv : List (String × Json)) (ev : Json)
    (h : nodupKeys (keysOf pkv) = true) :
    nodupKeys (keysOf (foldEnumDesc pkv ev)) = true := by
  unfold foldEnumDesc
  cases ev <;> simp only [] <;> first
    | exact h
    | exact nodupKeys_setKey _ _ _ h

theorem foldEnumProp_of_no_enum {pkv : List (String × Json)}
    (h : getKey pkv "enum" = none) : foldEnumProp pkv = pkv := by
  unfold foldEnumProp
  rw [h]

theorem foldEnumProp_getKey_ne (pkv : List (String × Json)) {k : String}
    (h1 : k ≠ "description") (h2 : k ≠ "enum") :
    getKey (foldEnumProp pkv) k = getKey pkv k := by
  unfold foldEnumProp
  cases he : getKey pkv "enum" with
  | none => rfl
  | some ev => rw [getKey_eraseKey_ne _ h2, foldEnumDesc_getKey_ne _ _ h1]

theorem foldEnumProp_enum_none (pkv : List (String × Json))
    (h : nodupKeys (keysOf pkv) = true) :
    getKey (foldEnumProp pkv) "enum" = none := by
  unfold foldEnumProp
  cases he : getKey pkv "enum" with
  | none => exact he
  | some ev => exact getKey_eraseKey_same _ _ (nodupKeys_foldEnumDesc _ _ h)

theorem nodupKeys_foldEnumProp (pkv : List (String × Json))
    (h : nodupKeys (keysOf pkv) = true) :
    nodupKeys (keysOf (foldEnumProp pkv)) = true := by
  unfold foldEnumProp
  cases he : getKey pkv "enum" with
  | none => exact h
  | some ev => exact nodupKeys_eraseKey _ _ (nodupKeys_foldEnumDesc _ _ h)

theorem flattenHTTP_shape {m : List (String × Json)} {u : Json}
    (h : flattenHTTP (.obj m) = .ok u) :
    ∃ m1, u = .obj m1 ∧ (∀ k, k ≠ "properties" → getKey m1 k = getKey m k) ∧
      (nodupKeys (keysOf m) = true → nodupKeys (keysOf m1) = true) := by
  rw [flattenHTTP] at h
  cases hp : getKey m "properties" with
  | none =>
    rw [hp] at h
    simp only [Except.ok.injEq] at h
    exact ⟨m, h.symm, fun k _ => rfl, fun hn => hn⟩
  | some pv =>
    rw [hp] at h
    cases pv with
    | obj pkvs =>
      simp only [] at h
      cases hps : processPropsHTTP pkvs with
      | error e => rw [hps] at h; simp at h
      | ok pkvs1 =>
        rw [hps] at h
        simp only [Except.ok.injEq] at h
        refine ⟨setKey m "properties" (.obj pkvs1), h.symm, ?_, ?_⟩
        · intro k hk
          exact getKey_setKey_ne _ _ hk
        · intro hn
          exact nodupKeys_setKey _ _ _ hn
    | null => simp at h
    | bool b => simp at h
    | num n => simp at h
    | str s => simp at h
    | arr es => simp at h

end Json

namespace Json

theorem flattenHTTP_idem_aux :
    ∀ n : Nat,
      (∀ s t : Json, 2 * sizeOf s ≤ n → wf s = true → flattenHTTP s = .ok t →
        flattenHTTP t = .ok t) ∧
      (∀ l l1 : List (String × Json), 2 * sizeOf l + 1 ≤ n → wfMembers l = true →
        processPropsHTTP l = .ok l1 → processPropsHTTP l1 = .ok l1) ∧
      (∀ p p1 : Json, 2 * sizeOf p + 1 ≤ n → wf p = true → processPropHTTP p = .ok p1 →
        processPropHTTP p1 = .ok p1) := by
  intro n
  induction n using Nat.strong_induction_on with
  | _ n ih =>
  refine ⟨?_, ?_, ?_⟩
  · -- flattenHTTP is idempotent
    intro s t hsz hwf h
    match s with
    | .null => simp only [flattenHTTP] at h; cases h; simp [flattenHTTP]
    | .bool b => simp only [flattenHTTP] at h; cases h; simp [flattenHTTP]
    | .num m => simp only [flattenHTTP] at h; cases h; simp [flattenHTTP]
    | .str sv => simp only [flattenHTTP] at h; cases h; simp [flattenHTTP]
    | .arr es => simp only [flattenHTTP] at h; cases h; simp [flattenHTTP]
    | .obj kvs =>
      simp only [wf, Bool.and_eq_true] at hwf
      rw [flattenHTTP] at h
      cases hp : getKey kvs "properties" with
      | none =>
        rw [hp] at h
        simp only [Except.ok.injEq] at h
        subst h
        rw [flattenHTTP, hp]
      | some pv =>
        rw [hp] at h
        cases pv with
        | null => simp at h
        | bool b2 => simp at h
        | num n2 => simp at h
        | str s2 => simp at h
        | arr es2 => simp at h
        | obj pkvs =>
          simp only [] at h
          cases hps : processPropsHTTP pkvs with
          | error e => rw [hps] at h; simp at h
          | ok pkvs1 =>
            rw [hps] at h
            simp only [Except.ok.injEq] at h
            subst h
            have hszp : 2 * sizeOf pkvs + 1 < n := by
              have := getKey_sizeOf hp
              simp at this hsz
              omega
            have hwfp : wfMembers pkvs = true := by
              have := wf_of_getKey
                (by simp only [wf, Bool.and_eq_true]; exact hwf) hp
              simp only [wf, Bool.and_eq_true] at this
              exact this.2
            have hidemp : processPropsHTTP pkvs1 = .ok pkvs1 :=
              (ih _ hszp).2.1 pkvs pkvs1 le_rfl hwfp hps
            have hp2 : getKey (setKey kvs "properties" (.obj pkvs1)) "properties" =
                some (.obj pkvs1) := getKey_setKey_same _ _ _
            rw [flattenHTTP, hp2]
            simp only []
            rw [hidemp]
            simp only []
            rw [setKey_self hp2]
  · -- processPropsHTTP is idempotent
    intro l l1 hsz hwf h
    match l with
    | [] =>
      simp only [processPropsHTTP] at h
      cases h
      simp [processPropsHTTP]
    | (k, p) :: t =>
      simp only [wfMembers, Bool.and_eq_true] at hwf
      rw [processPropsHTTP] at h
      cases hfp : processPropHTTP p with
      | error e => rw [hfp] at h; simp at h
      | ok p1 =>
        rw [hfp] at h
        simp only [] at h
        cases hft : processPropsHTTP t with
        | error e => rw [hft] at h; simp at h
        | ok t1 =>
          rw [hft] at h
          simp only [Except.ok.injEq] at h
          subst h
          have hszp : 2 * sizeOf p + 1 < n := by simp at hsz; omega
          have hszt : 2 * sizeOf t + 1 < n := by simp at hsz; omega
          have hpidem : processPropHTTP p1 = .ok p1 :=
            (ih _ hszp).2.2 p p1 le_rfl hwf.1 hfp
          have htidem : processPropsHTTP t1 = .ok t1 :=
            (ih _ hszt).2.1 t t1 le_rfl hwf.2 hft
          rw [processPropsHTTP, hpidem]
          simp only []
          rw [htidem]
  · -- processPropHTTP is idempotent
    intro p p1 hsz hwf h
    match p with
    | .null => simp only [processPropHTTP] at h; simp at h
    | .bool b => simp only [processPropHTTP] at h; simp at h
    | .num m => simp only [processPropHTTP] at h; simp at h
    | .str sv => simp only [processPropHTTP] at h; simp at h
    | .arr es => simp only [processPropHTTP] at h; simp at h
    | .obj pkv =>
      have hwf2 := hwf
      simp only [wf, Bool.and_eq_true] at hwf2
      rw [processPropHTTP] at h
      cases hto : typeIs pkv "object" with
      | true =>
        rw [if_pos hto] at h
        have hAsize : 2 * sizeOf (Json.obj pkv) < n := by simp at hsz ⊢; omega
        have hAidem : flattenHTTP p1 = .ok p1 :=
          (ih _ hAsize).1 (.obj pkv) p1 le_rfl hwf h
        obtain ⟨m1, rfl, hkeys, hnd⟩ := flattenHTTP_shape h
        have hto1 : typeIs m1 "object" = true := by
          unfold typeIs at hto ⊢
          rw [hkeys "type" (by decide)]
          exact hto
        rw [processPropHTTP, if_pos hto1]
        exact hAidem
      | false =>
        rw [if_neg (by simp [hto])] at h
        cases hta : typeIs pkv "array" with
        | false =>
          rw [if_neg (by simp [hta])] at h
          simp only [Except.ok.injEq] at h
          subst h
          have henr : getKey (foldEnumProp pkv) "enum" = none :=
            foldEnumProp_enum_none pkv hwf2.1
          have hty : ∀ u, typeIs (foldEnumProp pkv) u = typeIs pkv u := by
            intro u
            unfold typeIs
            rw [foldEnumProp_getKey_ne _ (by decide) (by decide)]
          rw [processPropHTTP, if_neg (by simp [hty, hto]),
            if_neg (by simp [hty, hta]), foldEnumProp_of_no_enum henr]
        | true =>
          rw [if_pos hta] at h
          cases hgi : (getKey pkv "items").getD (.obj []) with
          | null => rw [hgi] at h; simp at h
          | bool b2 => rw [hgi] at h; simp at h
          | num n2 => rw [hgi] at h; simp at h
          | arr es2 =>
            rw [hgi] at h
            simp only [] at h
            cases hae : es2.any (eqStr "enum") with
            | true => rw [if_pos hae] at h; simp at h
            | false =>
              rw [if_neg (by simp [hae])] at h
              simp only [Except.ok.injEq] at h
              subst h
              have henr : getKey (foldEnumProp pkv) "enum" = none :=
                foldEnumProp_enum_none pkv hwf2.1
              have hty : ∀ u, typeIs (foldEnumProp pkv) u = typeIs pkv u := by
                intro u
                unfold typeIs
                rw [foldEnumProp_getKey_ne _ (by decide) (by decide)]
              have hgi1 : (getKey (foldEnumProp pkv) "items").getD (.obj []) = .arr es2 := by
                rw [foldEnumProp_getKey_ne _ (by decide) (by decide)]
                exact hgi
              rw [processPropHTTP, if_neg (by simp [hty, hto]), if_pos (by simp [hty, hta]),
                hgi1]
              simp only []
              rw [if_neg (by simp [hae]), foldEnumProp_of_no_enum henr]
          | str s2 =>
            rw [hgi] at h
            simp only [] at h
            cases hae : substrB "enum" s2 with
            | true => rw [if_pos hae] at h; simp at h
            | false =>
              rw [if_neg (by simp [hae])] at h
              simp only [Except.ok.injEq] at h
              subst h
              have henr : getKey (foldEnumProp pkv) "enum" = none :=
                foldEnumProp_enum_none pkv hwf2.1
              have hty : ∀ u, typeIs (foldEnumProp pkv) u = typeIs pkv u := by
                intro u
                unfold typeIs
                rw [foldEnumProp_getKey_ne _ (by decide) (by decide)]
              have hgi1 : (getKey (foldEnumProp pkv) "items").getD (.obj []) = .str s2 := by
                rw [foldEnumProp_getKey_ne _ (by decide) (by decide)]
                exact hgi
              rw [processPropHTTP, if_neg (by simp [hty, hto]), if_pos (by simp [hty, hta]),
                hgi1]
              simp only []
              rw [if_neg (by simp [hae]), foldEnumProp_of_no_enum henr]
          | obj ikv =>
            rw [hgi] at h
            simp only [] at h
            -- well-formedness of the items dict
            have hwfikv : nodupKeys (keysOf ikv) = true ∧ wfMembers ikv = true := by
              cases hgk : getKey pkv "items" with
              | none =>
                rw [hgk] at hgi
                simp only [Option.getD_none, Json.obj.injEq] at hgi
                subst hgi
                constructor <;> rfl
              | some iv =>
                rw [hgk] at hgi
                simp only [Option.getD_some] at hgi
                subst hgi
                have := wf_of_getKey hwf hgk
                simp only [wf, Bool.and_eq_true] at this
                exact this
            have hszikv : sizeOf ikv ≤ sizeOf pkv := getD_obj_sizeOf hgi
            cases hie : getKey ikv "enum" with
            | some ev =>
              rw [hie] at h
              simp only [] at h
              cases hfi : flattenHTTP (.obj (eraseKey ikv "enum")) with
              | error e => rw [hfi] at h; simp at h
              | ok itf =>
                rw [hfi] at h
                simp only [Except.ok.injEq] at h
                subst h
                have hAsize : 2 * sizeOf (Json.obj (eraseKey ikv "enum")) < n := by
                  have := eraseKey_sizeOf_le ikv "enum"
                  simp at hsz ⊢
                  omega
                have hwferase : wf (Json.obj (eraseKey ikv "enum")) = true := by
                  simp only [wf, Bool.and_eq_true]
                  exact ⟨nodupKeys_eraseKey _ _ hwfikv.1, wfMembers_eraseKey _ _ hwfikv.2⟩
                have hAidem : flattenHTTP itf = .ok itf :=
                  (ih _ hAsize).1 _ itf le_rfl hwferase hfi
                obtain ⟨mif, rfl, hkeys, hnd⟩ := flattenHTTP_shape hfi
                have hmife : getKey mif "enum" = none := by
                  rw [hkeys "enum" (by decide)]
                  exact getKey_eraseKey_same _ _ hwfikv.1
                -- the processed property
                set q := setKey (foldEnumDesc pkv ev) "items" (Json.obj mif) with hq
                have hnq : nodupKeys (keysOf q) = true :=
                  nodupKeys_setKey _ _ _ (nodupKeys_foldEnumDesc _ _ hwf2.1)
                have henr : getKey (foldEnumProp q) "enum" = none :=
                  foldEnumProp_enum_none q hnq
                have hqty : ∀ u, typeIs (foldEnumProp q) u = typeIs pkv u := by
                  intro u
                  unfold typeIs
                  rw [foldEnumProp_getKey_ne _ (by decide) (by decide), hq,
                    getKey_setKey_ne _ _ (by decide),
                    foldEnumDesc_getKey_ne _ _ (by decide)]
                have hqit : getKey (foldEnumProp q) "items" = some (Json.obj mif) := by
                  rw [foldEnumProp_getKey_ne _ (by decide) (by decide), hq]
                  exact getKey_setKey_same _ _ _
                rw [processPropHTTP, if_neg (by simp [hqty, hto]),
                  if_pos (by simp [hqty, hta]),
                  show (getKey (foldEnumProp q) "items").getD (.obj []) = .obj mif by
                    rw [hqit]; rfl]
                simp only []
                rw [hmife]
                simp only []
                rw [hAidem]
                simp only []
                rw [setKey_self hqit, foldEnumProp_of_no_enum henr]
            | none =>
              rw [hie] at h
              simp only [] at h
              cases hfi : flattenHTTP (.obj ikv) with
              | error e => rw [hfi] at h; simp at h
              | ok itf =>
                rw [hfi] at h
                simp only [Except.ok.injEq] at h
                subst h
                have hAsize : 2 * sizeOf (Json.obj ikv) < n := by
                  simp at hsz ⊢
                  omega
                have hwfokv : wf (Json.obj ikv) = true := by
                  simp only [wf, Bool.and_eq_true]
                  exact hwfikv
                have hAidem : flattenHTTP itf = .ok itf :=
                  (ih _ hAsize).1 _ itf le_rfl hwfokv hfi
                obtain ⟨mif, rfl, hkeys, hnd⟩ := flattenHTTP_shape hfi
                have hmife : getKey mif "enum" = none := by
                  rw [hkeys "enum" (by decide)]
                  exact hie
                set q := setKey pkv "items" (Json.obj mif) with hq
                have hnq : nodupKeys (keysOf q) = true := nodupKeys_setKey _ _ _ hwf2.1
                have henr : getKey (foldEnumProp q) "enum" = none :=
                  foldEnumProp_enum_none q hnq
                have hqty : ∀ u, typeIs (foldEnumProp q) u = typeIs pkv u := by
                  intro u
                  unfold typeIs
                  rw [foldEnumProp_getKey_ne _ (by decide) (by decide), hq,
                    getKey_setKey_ne _ _ (by decide)]
                have hqit : getKey (foldEnumProp q) "items" = some (Json.obj mif) := by
                  rw [foldEnumProp_getKey_ne _ (by decide) (by decide), hq]
                  exact getKey_setKey_same _ _ _
                rw [processPropHTTP, if_neg (by simp [hqty, hto]),
                  if_pos (by simp [hqty, hta]),
                  show (getKey (foldEnumProp q) "items").getD (.obj []) = .obj mif by
                    rw [hqit]; rfl]
                simp only []
                rw [hmife]
                simp only []
                rw [hAidem]
                simp only []
                rw [setKey_self hqit, foldEnumProp_of_no_enum henr]

end Json

/-- Claim C5: the Schema Flattener is idempotent — for every JSON-compatible
schema value `s`, `flatten(flatten(s)) == flatten(s)`.  This holds for both
copies of `flatten_enum` (`mcp_server_http.py` and `mcp_server_sse.py`),
stated in Kleisli form so that inputs on which `flatten_enum` raises
(where the Python equation cannot evaluate) propagate the same exception. -/
theorem claim_C5_flatten_idempotent (s : Json) (hwf : Json.wf s = true) :
    (Json.flattenSSE s).bind Json.flattenSSE = Json.flattenSSE s ∧
    (Json.flattenHTTP s).bind Json.flattenHTTP = Json.flattenHTTP s := by
  constructor
  · cases h : Json.flattenSSE s with
    | error e => rfl
    | ok t =>
      have := (Json.flattenSSE_idem_aux (sizeOf s)).1 s t le_rfl hwf h
      simp [Except.bind, this]
  · cases h : Json.flattenHTTP s with
    | error e => rfl
    | ok t =>
      have := (Json.flattenHTTP_idem_aux (2 * sizeOf s)).1 s t le_rfl hwf h
      simp [Except.bind, this]

/-- Witness for C5 at the spec's own enum example schema. -/
theorem claim_C5_witness :
    Json.wf (.obj [("type", .str "string"), ("enum", .arr [.str "a", .str "b"]),
      ("description", .str "mode")]) = true ∧
    ((Json.flattenSSE (.obj [("type", .str "string"), ("enum", .arr [.str "a", .str "b"]),
        ("description", .str "mode")])).bind Json.flattenSSE =
      Json.flattenSSE (.obj [("type", .str "string"), ("enum", .arr [.str "a", .str "b"]),
        ("description", .str "mode")]) ∧
     (Json.flattenHTTP (.obj [("type", .str "string"), ("enum", .arr [.str "a", .str "b"]),
        ("description", .str "mode")])).bind Json.flattenHTTP =
      Json.flattenHTTP (.obj [("type", .str "string"), ("enum", .arr [.str "a", .str "b"]),
        ("description", .str "mode")])) :=
  ⟨by decide, claim_C5_flatten_idempotent _ (by decide)⟩

/-- Claim C7 as stated is false: applied directly to the property schema
`{"type": "string", "enum": ["a", "b"], "description": "mode"}`, the HTTP
server's `flatten_enum` returns it unchanged (it only rewrites enums found
inside a `properties` map, never a root-level enum), and the SSE server's
`flatten_enum` folds the enum with the `" | Enum: "` delimiter, not
`" | 選項: "` — so neither produces the claimed
`{"type": "string", "description": "mode | 選項: a, b"}`. -/
theorem claim_C7_counterexample :
    Json.flattenHTTP (.obj [("type", .str "string"), ("enum", .arr [.str "a", .str "b"]),
        ("description", .str "mode")]) =
      .ok (.obj [("type", .str "string"), ("enum", .arr [.str "a", .str "b"]),
        ("description", .str "mode")]) ∧
    Json.flattenSSE (.obj [("type", .str "string"), ("enum", .arr [.str "a", .str "b"]),
        ("description", .str "mode")]) =
      .ok (.obj [("type", .str "string"), ("description", .str "mode | Enum: a, b")]) ∧
    Json.flattenHTTP (.obj [("type", .str "string"), ("enum", .arr [.str "a", .str "b"]),
        ("description", .str "mode")]) ≠
      .ok (.obj [("type", .str "string"), ("description", .str "mode | 選項: a, b")]) ∧
    Json.flattenSSE (.obj [("type", .str "string"), ("enum", .arr [.str "a", .str "b"]),
        ("description", .str "mode")]) ≠
      .ok (.obj [("type", .str "string"), ("description", .str "mode | 選項: a, b")]) := by
  have h1 : Json.flattenHTTP (.obj [("type", .str "string"),
      ("enum", .arr [.str "a", .str "b"]), ("description", .str "mode")]) =
      .ok (.obj [("type", .str "string"), ("enum", .arr [.str "a", .str "b"]),
        ("description", .str "mode")]) := by
    rw [Json.flattenHTTP,
      show Json.getKey [("type", Json.str "string"),
        ("enum", Json.arr [Json.str "a", Json.str "b"]),
        ("description", Json.str "mode")] "properties" = none by rfl]
  have h2 : Json.flattenSSE (.obj [("type", .str "string"),
      ("enum", .arr [.str "a", .str "b"]), ("description", .str "mode")]) =
      .ok (.obj [("type", .str "string"), ("description", .str "mode | Enum: a, b")]) := by
    simp [Json.flattenSSE, Json.sseRootFold, Json.getKey, Json.joinEnumSSE, Json.commaJoin,
      Json.pyStr, Json.setKey, Json.eraseKey]
    rfl
  refine ⟨h1, h2, ?_, ?_⟩
  · rw [h1]
    intro h
    simp at h
  · rw [h2]
    intro h
    simp only [Except.ok.injEq, Json.obj.injEq, List.cons.injEq, Prod.mk.injEq,
      Json.str.injEq] at h
    exact absurd h.2.1.2 (by decide)

namespace Json

/-- Unfolding equation for `flattenHTTP` on a dict with no `properties`. -/
theorem flattenHTTP_obj_noprops {kvs : List (String × Json)}
    (hp : getKey kvs "properties" = none) : flattenHTTP (.obj kvs) = .ok (.obj kvs) := by
  rw [flattenHTTP, hp]

/-- Unfolding equation for `flattenHTTP` on a dict whose `properties` is a
dict and whose property loop succeeds. -/
theorem flattenHTTP_obj_props {kvs pkvs pkvs1 : List (String × Json)}
    (hp : getKey kvs "properties" = some (.obj pkvs))
    (hps : processPropsHTTP pkvs = .ok pkvs1) :
    flattenHTTP (.obj kvs) = .ok (.obj (setKey kvs "properties" (.obj pkvs1))) := by
  rw [flattenHTTP, hp]
  simp only []
  rw [hps]

/-- Unfolding equation for the empty property loop. -/
theorem processPropsHTTP_nil : processPropsHTTP [] = .ok [] := by
  rw [processPropsHTTP]

/-- Unfolding equation for one successful step of the property loop. -/
theorem processPropsHTTP_cons {k : String} {p p1 : Json} {t t1 : List (String × Json)}
    (h1 : processPropHTTP p = .ok p1) (h2 : processPropsHTTP t = .ok t1) :
    processPropsHTTP ((k, p) :: t) = .ok ((k, p1) :: t1) := by
  rw [processPropsHTTP, h1]
  simp only []
  rw [h2]

/-- Unfolding equation for a property whose `type` is neither `"object"` nor
`"array"`: only the shared enum block runs. -/
theorem processPropHTTP_plain {pkv : List (String × Json)}
    (h1 : typeIs pkv "object" = false) (h2 : typeIs pkv "array" = false) :
    processPropHTTP (.obj pkv) = .ok (.obj (foldEnumProp pkv)) := by
  rw [processPropHTTP, if_neg (by simp [h1]), if_neg (by simp [h2])]

end Json

/-- Claim C7 amended: the claimed flattening is produced by the HTTP server's
`flatten_enum` when that schema occurs as a property inside an object
schema's `properties` map (exactly how `fetch_superior_apis_tools` invokes
it on synthesized input schemas): the property flattens to
`{"type": "string", "description": "mode | 選項: a, b"}` with `enum`
removed. -/
theorem claim_C7_amended :
    Json.flattenHTTP (.obj [("type", .str "object"),
      ("properties", .obj [("mode", .obj [("type", .str "string"),
        ("enum", .arr [.str "a", .str "b"]), ("description", .str "mode")])])]) =
    .ok (.obj [("type", .str "object"),
      ("properties", .obj [("mode", .obj [("type", .str "string"),
        ("description", .str "mode | 選項: a, b")])])]) := by
  have h1 : Json.processPropHTTP (.obj [("type", .str "string"),
      ("enum", .arr [.str "a", .str "b"]), ("description", .str "mode")]) =
      .ok (.obj [("type", .str "string"), ("description", .str "mode | 選項: a, b")]) := by
    rw [Json.processPropHTTP_plain (by rfl) (by rfl)]
    rfl
  rw [Json.flattenHTTP_obj_props (by rfl)
    (Json.processPropsHTTP_cons h1 Json.processPropsHTTP_nil)]
  rfl

/-! Generic association-list operations for the per-token caches
(`tools_cache` in all three servers), with the same Python-dict semantics
as `Json.getKey`, `Json.setKey`, `Json.eraseKey`. -/

def alookup {α : Type} : List (String × α) → String → Option α
  | [], _ => none
  | (k', v) :: t, k => if k' = k then some v else alookup t k

def aset {α : Type} : List (String × α) → String → α → List (String × α)
  | [], k, v => [(k, v)]
  | (k', v') :: t, k, v => if k' = k then (k, v) :: t else (k', v') :: aset t k v

def aerase {α : Type} : List (String × α) → String → List (String × α)
  | [], _ => []
  | (k', v') :: t, k => if k' = k then t else (k', v') :: aerase t k

namespace Json

/-- Python `k in x` for an arbitrary value: key test on dicts, element
equality on lists, substring test on strings, `TypeError` otherwise. -/
def pyIn (k : String) : Json → Except PyErr Bool
  | .obj ms => .ok (hasKey ms k)
  | .arr es => .ok (es.any (eqStr k))
  | .str s => .ok (substrB k s)
  | _ => .error .typeError

/-- Python iteration `for x in v`: elements of a list, keys of a dict,
characters of a string, `TypeError` otherwise. -/
def pyIter : Json → Except PyErr (List Json)
  | .arr es => .ok es
  | .obj ms => .ok (ms.map (fun kv => Json.str kv.1))
  | .str s => .ok (s.data.map (fun c => Json.str (String.singleton c)))
  | _ => .error .typeError

/-- Python `v.items()`: only dicts have it. -/
def pyItems : Json → Except PyErr (List (String × Json))
  | .obj ms => .ok ms
  | _ => .error .attributeError

/-- Python `v[k]` for a string key: dict lookup (`KeyError` when absent),
`TypeError` on any non-dict. -/
def pyIndex : Json → String → Except PyErr Json
  | .obj ms, k =>
    (match getKey ms k with
     | some v => .ok v
     | none => .error .keyError)
  | _, _ => .error .typeError

/-- Python truthiness of a JSON-compatible value. -/
def pyTruthy : Json → Bool
  | .null => false
  | .bool b => b
  | .num n => n != 0
  | .str s => s != ""
  | .arr es => !es.isEmpty
  | .obj ms => !ms.isEmpty

end Json

/-- One upstream HTTP exchange as seen by a fetcher: the status code and
the parse of the body text (`none` when the body is not valid JSON). -/
structure UpstreamResponse where
  status : Nat
  body : Option Json

/-- A Tool Descriptor synthesized by `fetch_superior_apis_tools` in
`mcp_server_http.py` / `mcp_server_sse.py` (lines 509-520 / 264-275): the
public `name` / `description` / `inputSchema` plus the `_meta` block.
`name` and `description` stay `Json` because `operationId` and `summary`
are taken from the upstream document verbatim. -/
structure SrvTool where
  name : Json
  description : Json
  inputSchema : Json
  baseUrl : String
  path : String
  method : String
  pluginName : Json
  originalSpec : Json
deriving Repr

namespace Json

/-- Python `dict.update` as used on `input_schema['properties']`
(mcp_server_http.py line 488): merge another dict's entries in order.
(The upstream `properties` value must itself be a dict; any other JSON
value raises.) -/
def updateProps (props : List (String × Json)) : Json → Except PyErr (List (String × Json))
  | .obj other => .ok (other.foldl (fun acc kv => setKey acc kv.1 kv.2) props)
  | _ => .error .typeError

/-- The `parameters` loop of tool synthesis (mcp_server_http.py lines
493-502): each declared parameter contributes a
`{"type": ..., "description": ...}` property (schema defaulting to
`{"type": "string"}`) and, when its `required` field is truthy, its name
to the required list.  A parameter that is not a dict raises at
`param['name']`; a missing `name` raises `KeyError`; a non-string name
cannot be a JSON object key (Python would accept any hashable — no
upstream JSON document can produce one). -/
def synthParams : List Json → List (String × Json) → List Json →
    Except PyErr (List (String × Json) × List Json)
  | [], props, req => .ok (props, req)
  | p :: rest, props, req =>
    match p with
    | .obj pm =>
      (match getKey pm "name" with
       | some (.str pname) =>
         (match (getKey pm "schema").getD (.obj [("type", .str "string")]) with
          | .obj psm =>
            let entry := Json.obj [("type", (getKey psm "type").getD (.str "string")),
              ("description", (getKey pm "description").getD (.str ""))]
            let props1 := setKey props pname entry
            let req1 := if pyTruthy ((getKey pm "required").getD (.bool false))
              then req ++ [Json.str pname] else req
            synthParams rest props1 req1
          | _ => .error .attributeError)
       | some _ => .error .typeError
       | none => .error .keyError)
    | _ => .error .typeError

/-- The `requestBody.content` loop of tool synthesis (mcp_server_http.py
lines 484-490): for each content type whose value has a `schema`, merge
the schema's `properties` into the accumulated properties and extend the
required list by the schema's `required` entries. -/
def synthBody : List (String × Json) → List (String × Json) → List Json →
    Except PyErr (List (String × Json) × List Json)
  | [], props, req => .ok (props, req)
  | (_, content) :: rest, props, req =>
    match pyIn "schema" content with
    | .error e => .error e
    | .ok false => synthBody rest props req
    | .ok true =>
      match pyIndex content "schema" with
      | .error e => .error e
      | .ok bodySchema =>
        match pyIn "properties" bodySchema with
        | .error e => .error e
        | .ok hasProps =>
          match (if hasProps then
              (pyIndex bodySchema "properties").bind (updateProps props)
            else .ok props) with
          | .error e => .error e
          | .ok props1 =>
            match pyIn "required" bodySchema with
            | .error e => .error e
            | .ok hasReq =>
              match (if hasReq then
                  (pyIndex bodySchema "required").bind pyIter
                else .ok []) with
              | .error e => .error e
              | .ok extra => synthBody rest props1 (req ++ extra)

end Json

namespace Json

/-- Synthesis of one Tool Descriptor by `fetch_superior_apis_tools`
(mcp_server_http.py lines 474-520, identical in mcp_server_sse.py lines
221-275 up to the flattener copy and the configured base URL, both passed
in as parameters).  The fallback tool name
`f"{method.lower()}_{plugin_name.replace('-', '_')}"` is the eagerly
evaluated default argument of `spec.get`, so a non-string
`name_for_model` raises `AttributeError` even when `operationId` exists. -/
def synthTool (flatten : Json → Except PyErr Json) (baseUrl : String)
    (pluginName : Json) (pluginDesc : Json) (path : String) (method : String)
    (spec : Json) : Except PyErr SrvTool :=
  match spec with
  | .obj sm =>
    (match pluginName with
     | .str pn =>
       let toolName := (getKey sm "operationId").getD
         (.str (method.toLower ++ "_" ++ pyReplace pn "-" "_"))
       let bodyRes : Except PyErr (List (String × Json) × List Json) :=
         match getKey sm "requestBody" with
         | some rb =>
           (match pyIn "content" rb with
            | .error e => .error e
            | .ok true =>
              (match pyIndex rb "content" with
               | .error e => .error e
               | .ok c =>
                 match pyItems c with
                 | .error e => .error e
                 | .ok citems => synthBody citems [] [])
            | .ok false => .ok ([], []))
         | none => .ok ([], [])
       match bodyRes with
       | .error e => .error e
       | .ok (props0, req0) =>
         let paramRes : Except PyErr (List (String × Json) × List Json) :=
           match getKey sm "parameters" with
           | some ps =>
             (match pyIter ps with
              | .error e => .error e
              | .ok items => synthParams items props0 req0)
           | none => .ok (props0, req0)
         match paramRes with
         | .error e => .error e
         | .ok (props, req) =>
           let inputSchema := Json.obj
             ([("type", Json.str "object"), ("properties", Json.obj props)] ++
              (if req.isEmpty then [] else [("required", Json.arr req)]))
           match flatten inputSchema with
           | .error e => .error e
           | .ok flat =>
             .ok { name := toolName
                 , description := (getKey sm "summary").getD pluginDesc
                 , inputSchema := flat
                 , baseUrl := baseUrl
                 , path := path
                 , method := method.toUpper
                 , pluginName := pluginName
                 , originalSpec := spec }
     | _ => .error .attributeError)
  | _ => .error .attributeError

/-- The per-path method loop (mcp_server_http.py lines 472-522): only
`get` / `post` / `put` / `delete` (case-insensitive) methods are
surfaced, in document order. -/
def synthMethods (flatten : Json → Except PyErr Json) (baseUrl : String)
    (pluginName pluginDesc : Json) (path : String) :
    List (String × Json) → Except PyErr (List SrvTool)
  | [] => .ok []
  | (method, spec) :: rest =>
    if method.toLower = "get" ∨ method.toLower = "post" ∨ method.toLower = "put" ∨
        method.toLower = "delete" then
      match synthTool flatten baseUrl pluginName pluginDesc path method spec with
      | .error e => .error e
      | .ok t =>
        match synthMethods flatten baseUrl pluginName pluginDesc path rest with
        | .error e => .error e
        | .ok ts => .ok (t :: ts)
    else synthMethods flatten baseUrl pluginName pluginDesc path rest

/-- The per-plugin path loop (mcp_server_http.py lines 471-521). -/
def synthPaths (flatten : Json → Except PyErr Json) (baseUrl : String)
    (pluginName pluginDesc : Json) :
    List (String × Json) → Except PyErr (List SrvTool)
  | [] => .ok []
  | (path, methods) :: rest =>
    match pyItems methods with
    | .error e => .error e
    | .ok mitems =>
      match synthMethods flatten baseUrl pluginName pluginDesc path mitems with
      | .error e => .error e
      | .ok ts =>
        match synthPaths flatten baseUrl pluginName pluginDesc rest with
        | .error e => .error e
        | .ok ts2 => .ok (ts ++ ts2)

/-- The plugin loop (mcp_server_http.py lines 462-521).  There is no
per-plugin `try`: any exception aborts the whole parse (and the caller
degrades to an empty list without caching). -/
def synthPlugins (flatten : Json → Except PyErr Json) (baseUrl : String) :
    List Json → Except PyErr (List SrvTool)
  | [] => .ok []
  | item :: rest =>
    match item with
    | .obj im =>
      (match (getKey im "plugin").getD (.obj []) with
       | .obj pm =>
         let pluginName := (getKey pm "name_for_model").getD (.str "unknown")
         let pluginDesc := (getKey pm "description_for_model").getD (.str "")
         (match (getKey pm "interface").getD (.obj []) with
          | .obj itf =>
            (match pyItems ((getKey itf "paths").getD (.obj [])) with
             | .error e => .error e
             | .ok pitems =>
               match synthPaths flatten baseUrl pluginName pluginDesc pitems with
               | .error e => .error e
               | .ok ts =>
                 match synthPlugins flatten baseUrl rest with
                 | .error e => .error e
                 | .ok ts2 => .ok (ts ++ ts2))
          | _ => .error .attributeError)
       | _ => .error .attributeError)
    | _ => .error .attributeError

/-- The catalog parse of `fetch_superior_apis_tools` (mcp_server_http.py
lines 457-523) applied to an already-decoded JSON body: no `plugins` key
yields zero tools; a malformed document raises (degrading to `[]` at the
call site). -/
def parseToolsSrv (flatten : Json → Except PyErr Json) (baseUrl : String)
    (data : Json) : Except PyErr (List SrvTool) :=
  match pyIn "plugins" data with
  | .error e => .error e
  | .ok false => .ok []
  | .ok true =>
    match pyIndex data "plugins" with
    | .error e => .error e
    | .ok plugins =>
      match pyIter plugins with
      | .error e => .error e
      | .ok items => synthPlugins flatten baseUrl items

end Json

/-- The cached value for one token in `mcp_server_http.py` /
`mcp_server_sse.py`: the tool list plus the (ghost) time at which it was
stored.  The Python `tools_cache` holds only the list; the timestamp is
recorded here purely so that properties about cache age can be stated —
the modelled code never reads it. -/
structure SrvCacheEntry where
  tools : List SrvTool
  fetchedAt : Nat
deriving Repr

/-- One call of `fetch_superior_apis_tools` (mcp_server_http.py lines
411-540, mcp_server_sse.py lines 144-296; the two bodies are identical up
to the `flatten_enum` copy and configured base URL).  `net` is what the
upstream would answer if called (`none` = network failure / timeout);
`now` is the current time (used only for the ghost timestamp).  Returns
the tool list, the updated cache, and whether an upstream HTTP request
was issued. -/
def fetchToolsSrv (flatten : Json → Except PyErr Json) (baseUrl : String)
    (token : String) (cache : List (String × SrvCacheEntry)) (now : Nat)
    (net : Option UpstreamResponse) :
    List SrvTool × List (String × SrvCacheEntry) × Bool :=
  if token = "" then ([], cache, false)
  else if token.length < 10 then ([], cache, false)
  else
    match alookup cache token with
    | some entry => (entry.tools, cache, false)
    | none =>
      match net with
      | none => ([], cache, true)
      | some resp =>
        if resp.status = 200 then
          match resp.body with
          | none => ([], cache, true)
          | some data =>
            match Json.parseToolsSrv flatten baseUrl data with
            | .error _ => ([], cache, true)
            | .ok tools => (tools, aset cache token ⟨tools, now⟩, true)
        else ([], cache, true)

/-- `fetch_superior_apis_tools` of the HTTP server (flattener
`mcp_server_http.flatten_enum`, base `SUPERIOR_API_BASE`). -/
def fetchToolsHTTP (token : String) (cache : List (String × SrvCacheEntry)) (now : Nat)
    (net : Option UpstreamResponse) :
    List SrvTool × List (String × SrvCacheEntry) × Bool :=
  fetchToolsSrv Json.flattenHTTP "https://superiorapis-creator.cteam.com.tw" token cache now net

/-- `fetch_superior_apis_tools` of the SSE server (flattener
`mcp_server_sse.flatten_enum`, same configured base URL). -/
def fetchToolsSSE (token : String) (cache : List (String × SrvCacheEntry)) (now : Nat)
    (net : Option UpstreamResponse) :
    List SrvTool × List (String × SrvCacheEntry) × Bool :=
  fetchToolsSrv Json.flattenSSE "https://superiorapis-creator.cteam.com.tw" token cache now net

/-- A tool record built by `dify_mcp_standalone.fetch_superior_tools`
(lines 156-169): public `name` / `description` / `parameters` plus the
`_api_info` block used at call time. -/
structure DifyTool where
  name : Json
  description : Json
  parameters : Json
  url : String
  method : String
  plugin : Json
  originalSpec : Json
deriving Repr

namespace Json

/-- The per-path method loop of `dify_mcp_standalone.fetch_superior_tools`
(lines 121-171): `get/post/put/delete` only; `post/put/patch` tools carry
`summary` + `requestBody`, `get/delete` tools carry `summary` +
`parameters` (a `None` parameters array is replaced by `[]`).  The
fallback tool name `f"{method}_{plugin_name}"` uses the raw method casing
and `str()` of the plugin name, so it never raises. -/
def difyMethods (pluginName pluginDesc : Json) (path : String) :
    List (String × Json) → Except PyErr (List DifyTool)
  | [] => .ok []
  | (method, spec) :: rest =>
    if method.toLower = "get" ∨ method.toLower = "post" ∨ method.toLower = "put" ∨
        method.toLower = "delete" then
      match spec with
      | .obj sm =>
        let toolName := (getKey sm "operationId").getD
          (.str (method ++ "_" ++ pyStr pluginName))
        let summary := (getKey sm "summary").getD pluginDesc
        let parameters : Json :=
          if method.toLower = "post" ∨ method.toLower = "put" ∨
              method.toLower = "patch" then
            match getKey sm "requestBody" with
            | some rb => .obj [("summary", summary), ("requestBody", rb)]
            | none => .obj [("summary", summary)]
          else
            match getKey sm "parameters" with
            | some ps => .obj [("summary", summary),
                ("parameters", match ps with | .null => .arr [] | _ => ps)]
            | none => .obj [("summary", summary), ("parameters", .arr [])]
        (match difyMethods pluginName pluginDesc path rest with
         | .error e => .error e
         | .ok ts =>
           .ok ({ name := toolName
                , description := (getKey sm "summary").getD pluginDesc
                , parameters := parameters
                , url := "https://superiorapis-creator.cteam.com.tw" ++ path
                , method := method.toUpper
                , plugin := pluginName
                , originalSpec := spec } :: ts))
      | _ => .error .attributeError
    else difyMethods pluginName pluginDesc path rest

/-- The per-plugin path loop of `fetch_superior_tools` (lines 121-171). -/
def difyPaths (pluginName pluginDesc : Json) :
    List (String × Json) → Except PyErr (List DifyTool)
  | [] => .ok []
  | (path, methods) :: rest =>
    match pyItems methods with
    | .error e => .error e
    | .ok mitems =>
      match difyMethods pluginName pluginDesc path mitems with
      | .error e => .error e
      | .ok ts =>
        match difyPaths pluginName pluginDesc rest with
        | .error e => .error e
        | .ok ts2 => .ok (ts ++ ts2)

/-- Processing of one plugin item by `fetch_superior_tools`
(lines 109-171, the body of the per-plugin `try`). -/
def difyPluginTools (item : Json) : Except PyErr (List DifyTool) :=
  match item with
  | .obj im =>
    (match (getKey im "plugin").getD (.obj []) with
     | .obj pm =>
       let pluginName := (getKey pm "name_for_model").getD (.str "unknown")
       let pluginDesc := (getKey pm "description_for_model").getD (.str "")
       (match (getKey pm "interface").getD (.obj []) with
        | .obj itf =>
          (match pyItems ((getKey itf "paths").getD (.obj [])) with
           | .error e => .error e
           | .ok pitems => difyPaths pluginName pluginDesc pitems)
        | _ => .error .attributeError)
     | _ => .error .attributeError)
  | _ => .error .attributeError

/-- The plugin loop of `fetch_superior_tools` (lines 108-174): unlike the
HTTP/SSE servers, each plugin is wrapped in `try/except: continue`, so a
malformed plugin is skipped and the rest are kept. -/
def difyPlugins : List Json → List DifyTool
  | [] => []
  | item :: rest =>
    (match difyPluginTools item with
     | .error _ => []
     | .ok ts => ts) ++ difyPlugins rest

/-- The catalog parse of `fetch_superior_tools` on a decoded body
(lines 100-174): `.ok none` is the early `return []` taken when the body
has no `plugins` key — in that case nothing is cached. -/
def difyParse (data : Json) : Except PyErr (Option (List DifyTool)) :=
  match pyIn "plugins" data with
  | .error e => .error e
  | .ok false => .ok none
  | .ok true =>
    match pyIndex data "plugins" with
    | .error e => .error e
    | .ok plugins =>
      match pyIter plugins with
      | .error e => .error e
      | .ok items => .ok (some (difyPlugins items))

end Json

/-- `CACHE_TTL = 5 * 60` seconds (dify_mcp_standalone.py line 29). -/
def difyCacheTTL : Nat := 5 * 60

/-- One call of `dify_mcp_standalone.fetch_superior_tools` (lines 73-186).
There is no credential validation: any token goes straight to the cache
check and then, on a miss or an expired entry (age `≥ CACHE_TTL`, with
the expired entry deleted), to the upstream call.  A body without a
`plugins` key returns `[]` without caching; any other successful parse —
including one yielding zero tools — is cached with its timestamp. -/
def fetchToolsDify (token : String) (cache : List (String × (List DifyTool × Nat)))
    (now : Nat) (net : Option UpstreamResponse) :
    List DifyTool × List (String × (List DifyTool × Nat)) × Bool :=
  let cold : List (String × (List DifyTool × Nat)) →
      List DifyTool × List (String × (List DifyTool × Nat)) × Bool := fun c =>
    match net with
    | none => ([], c, true)
    | some resp =>
      if resp.status ≠ 200 then ([], c, true)
      else
        match resp.body with
        | none => ([], c, true)
        | some data =>
          match Json.difyParse data with
          | .error _ => ([], c, true)
          | .ok none => ([], c, true)
          | .ok (some tools) => (tools, aset c token (tools, now), true)
  match alookup cache token with
  | some (tools, ts) =>
    if now - ts < difyCacheTTL then (tools, cache, false)
    else cold (aerase cache token)
  | none => cold cache

/-- Claim C2 counterexample: `dify_mcp_standalone.fetch_superior_tools`
performs no credential validation — a 5-character token on an empty cache
goes straight to the upstream call (third component `true` = an HTTP
request was issued), falsifying the claim that every short credential is
rejected by a local short-circuit before any network call. -/
theorem claim_C2_counterexample :
    (fetchToolsDify "short" [] 0 (some ⟨500, none⟩)).2.2 = true := rfl

/-- Claim C2 amended: the validation short-circuit exists in
`mcp_server_http.fetch_superior_apis_tools` and
`mcp_server_sse.fetch_superior_apis_tools`: any credential shorter than 10
characters (which includes the empty/missing one) yields the empty list,
an untouched cache, and no upstream request. -/
theorem claim_C2_amended (token : String) (h : token.length < 10)
    (cache : List (String × SrvCacheEntry)) (now : Nat) (net : Option UpstreamResponse) :
    fetchToolsHTTP token cache now net = ([], cache, false) ∧
    fetchToolsSSE token cache now net = ([], cache, false) := by
  unfold fetchToolsHTTP fetchToolsSSE fetchToolsSrv
  by_cases he : token = ""
  · simp [he]
  · simp [he, h]

/-- Witness for C2 amended at the 5-character credential `"short"`. -/
theorem claim_C2_witness :
    "short".length < 10 ∧
    (fetchToolsHTTP "short" [] 0 none = ([], [], false) ∧
     fetchToolsSSE "short" [] 0 none = ([], [], false)) :=
  ⟨by decide, claim_C2_amended "short" (by decide) [] 0 none⟩

/-- Claim C4 counterexample: the HTTP server caches forever.  A cache
entry stored at time `0` is still returned verbatim, with no upstream
request, at time `1000000` — an age far beyond the only TTL configured
anywhere in the repository (`CACHE_TTL = 300` seconds in
`dify_mcp_standalone.py`), falsifying "a cached list older than the TTL is
never returned". -/
theorem claim_C4_counterexample :
    fetchToolsHTTP "tok1234567890"
      [("tok1234567890", ⟨[⟨.str "t1", .str "d", .obj [], "https://base", "/p", "GET",
        .str "pl", .obj []⟩], 0⟩)] 1000000 none =
      ([⟨.str "t1", .str "d", .obj [], "https://base", "/p", "GET", .str "pl", .obj []⟩],
       [("tok1234567890", ⟨[⟨.str "t1", .str "d", .obj [], "https://base", "/p", "GET",
         .str "pl", .obj []⟩], 0⟩)], false) ∧
    difyCacheTTL < 1000000 - 0 :=
  ⟨rfl, by decide⟩

/-- Claim C4 amended: the TTL guarantee holds only for
`dify_mcp_standalone.fetch_superior_tools`: every call either performs an
upstream request during that call (third component `true`) or returns the
cached list whose age is strictly below `CACHE_TTL`. -/
theorem claim_C4_amended (token : String) (cache : List (String × (List DifyTool × Nat)))
    (now : Nat) (net : Option UpstreamResponse) :
    (fetchToolsDify token cache now net).2.2 = true ∨
    (∃ ts, alookup cache token = some ((fetchToolsDify token cache now net).1, ts) ∧
      now - ts < difyCacheTTL) := by
  unfold fetchToolsDify
  cases hc : alookup cache token with
  | none =>
    left
    cases net with
    | none => rfl
    | some resp =>
      by_cases hs : resp.status ≠ 200
      · simp [hs]
      · simp only [if_neg hs]
        cases hb : resp.body with
        | none => rfl
        | some data =>
          cases hp : Json.difyParse data with
          | error e => simp [hp]
          | ok o => cases o <;> simp [hp]
  | some entry =>
    obtain ⟨tools, ts⟩ := entry
    simp only []
    by_cases ht : now - ts < difyCacheTTL
    · right
      exact ⟨ts, by simp [hc, ht], by exact ht⟩
    · left
      simp only [if_neg ht]
      cases net with
      | none => rfl
      | some resp =>
        by_cases hs : resp.status ≠ 200
        · simp [hs]
        · simp only [if_neg hs]
          cases hb : resp.body with
          | none => rfl
          | some data =>
            cases hp : Json.difyParse data with
            | error e => simp [hp]
            | ok o => cases o <;> simp [hp]

/-- Claim C10 counterexample: in `dify_mcp_standalone.fetch_superior_tools`
a successful fetch (HTTP 200, parseable JSON body `{}`) that yields zero
tools does NOT store the empty list — the `plugins`-missing early return
skips the cache write — so the follow-up call contacts upstream again
(third component `true` both times, cache still empty). -/
theorem claim_C10_counterexample :
    fetchToolsDify "tok1234567890" [] 0 (some ⟨200, some (.obj [])⟩) = ([], [], true) ∧
    fetchToolsDify "tok1234567890" [] 1 (some ⟨200, some (.obj [])⟩) = ([], [], true) :=
  ⟨rfl, rfl⟩

/-- Claim C10 amended, for `fetch_superior_apis_tools` of the HTTP and SSE
servers (any parameterization of the shared body) on a cache miss with a
valid token:

* the cache is either left unchanged or written with exactly the parsed
  list of a 200-status parseable-body exchange (so zero-tool catalogs are
  cached too, and any traversal failure is not);
* a network failure, a non-200 status, or an unparseable body returns `[]`
  and leaves the cache unchanged;
* a 200 exchange parsing to zero tools stores the empty list;
* and any subsequent call that finds a cache entry returns it with no
  upstream request.

In `dify_mcp_standalone.fetch_superior_tools` the same holds except that a
200 parseable body without a `plugins` key returns `[]` without caching
(final conjunct). -/
theorem claim_C10_amended (flatten : Json → Except PyErr Json) (baseUrl : String)
    (token : String) (cache : List (String × SrvCacheEntry)) (now : Nat)
    (net : Option UpstreamResponse)
    (hmiss : alookup cache token = none) (hlen : 10 ≤ token.length) :
    ((fetchToolsSrv flatten baseUrl token cache now net).2.1 = cache ∨
      (∃ resp data, net = some resp ∧ resp.status = 200 ∧ resp.body = some data ∧
        Json.parseToolsSrv flatten baseUrl data =
          .ok (fetchToolsSrv flatten baseUrl token cache now net).1 ∧
        (fetchToolsSrv flatten baseUrl token cache now net).2.1 =
          aset cache token ⟨(fetchToolsSrv flatten baseUrl token cache now net).1, now⟩)) ∧
    ((net = none ∨ (∃ resp, net = some resp ∧ resp.status ≠ 200) ∨
        (∃ resp, net = some resp ∧ resp.body = none)) →
      fetchToolsSrv flatten baseUrl token cache now net = ([], cache, true)) ∧
    (∀ resp data, net = some resp → resp.status = 200 → resp.body = some data →
      Json.parseToolsSrv flatten baseUrl data = .ok [] →
      fetchToolsSrv flatten baseUrl token cache now net =
        ([], aset cache token ⟨[], now⟩, true)) ∧
    (∀ (cache2 : List (String × SrvCacheEntry)) entry now2 net2,
      alookup cache2 token = some entry →
      fetchToolsSrv flatten baseUrl token cache2 now2 net2 = (entry.tools, cache2, false)) ∧
    (∀ (cacheD : List (String × (List DifyTool × Nat))) resp data,
      alookup cacheD token = none → net = some resp → resp.status = 200 →
      resp.body = some data → Json.difyParse data = .ok none →
      fetchToolsDify token cacheD now net = ([], cacheD, true)) := by
  have hne : ¬token = "" := by
    intro he
    rw [he] at hlen
    simp at hlen
  have hnlt : ¬token.length < 10 := by omega
  refine ⟨?_, ?_, ?_, ?_, ?_⟩
  · unfold fetchToolsSrv
    simp only [if_neg hne, if_neg hnlt, hmiss]
    cases net with
    | none => left; rfl
    | some resp =>
      by_cases hs : resp.status = 200
      · simp only [if_pos hs]
        cases hb : resp.body with
        | none => left; rfl
        | some data =>
          cases hp : Json.parseToolsSrv flatten baseUrl data with
          | error e => left; simp [hp]
          | ok tools =>
            right
            exact ⟨resp, data, rfl, hs, hb, by simp [hp], by simp [hp]⟩
      · simp only [if_neg hs]
        left
        trivial
  · intro hfail
    unfold fetchToolsSrv
    simp only [if_neg hne, if_neg hnlt, hmiss]
    rcases hfail with hn | ⟨resp, hr, hs⟩ | ⟨resp, hr, hb⟩
    · rw [hn]
    · rw [hr]
      simp [hs]
    · rw [hr]
      by_cases hs : resp.status = 200
      · simp [hs, hb]
      · simp [hs]
  · intro resp data hr hs hb hp
    unfold fetchToolsSrv
    simp only [if_neg hne, if_neg hnlt, hmiss, hr]
    simp [hs, hb, hp]
  · intro cache2 entry now2 net2 hhit
    unfold fetchToolsSrv
    simp only [if_neg hne, if_neg hnlt, hhit]
  · intro cacheD resp data hmiss2 hr hs hb hp
    unfold fetchToolsDify
    simp only [hmiss2, hr]
    simp [hs, hb, hp]

/-- Witness for C10 amended: the HTTP server's fetch on a 200 exchange
whose body has an empty `plugins` array stores the empty tool list, and
the follow-up call is answered from the cache with no upstream request. -/
theorem claim_C10_witness :
    alookup ([] : List (String × SrvCacheEntry)) "tok1234567890" = none ∧
    10 ≤ "tok1234567890".length ∧
    (fetchToolsHTTP "tok1234567890" [] 5 (some ⟨200, some (.obj [("plugins", .arr [])])⟩) =
      ([], [("tok1234567890", ⟨[], 5⟩)], true) ∧
     fetchToolsHTTP "tok1234567890" [("tok1234567890", ⟨[], 5⟩)] 9 none =
      ([], [("tok1234567890", ⟨[], 5⟩)], false)) := by
  refine ⟨rfl, by decide, ?_, ?_⟩
  · exact (claim_C10_amended Json.flattenHTTP "https://superiorapis-creator.cteam.com.tw"
      "tok1234567890" [] 5 (some ⟨200, some (.obj [("plugins", .arr [])])⟩)
      rfl (by decide)).2.2.1 ⟨200, some (.obj [("plugins", .arr [])])⟩
      (.obj [("plugins", .arr [])]) rfl rfl rfl (by rfl)
  · exact (claim_C10_amended Json.flattenHTTP "https://superiorapis-creator.cteam.com.tw"
      "tok1234567890" [] 5 none rfl (by decide)).2.2.2.1
      [("tok1234567890", ⟨[], 5⟩)] ⟨[], 5⟩ 9 none rfl

/-- The HTTP request a tool invoker dispatches: method, resolved URL,
query parameters, headers, and optional JSON body (aiohttp `params=` /
`json=` arguments). -/
structure HttpRequest where
  method : String
  url : String
  query : List (String × Json)
  headers : List (String × Json)
  body : Option Json
deriving Repr

/-- The request formed by `call_superior_api_tool`
(mcp_server_http.py lines 556-603, identical in mcp_server_sse.py lines
311-366): look the tool up by name in the cached list (`none` = "tool not
found", no request dispatched); a `GET` tool sends ALL arguments as query
parameters (`params=arguments`) and no body; every other method —
including `DELETE` — sends ALL arguments as the JSON body
(`json=arguments`).  The declared parameter locations in
`_meta.original_spec` are never consulted. -/
def callRequestSrv (token : String) (toolName : String) (args : List (String × Json))
    (tools : List SrvTool) : Option HttpRequest :=
  match tools.find? (fun t => Json.eqStr toolName t.name) with
  | none => none
  | some t =>
    some { method := t.method
         , url := t.baseUrl ++ t.path
         , query := if t.method = "GET" then args else []
         , headers := [("token", .str token), ("Content-Type", .str "application/json")]
         , body := if t.method = "GET" then none else some (.obj args) }

namespace Json

/-- The parameter-routing loop of `dify_mcp_standalone.call_superior_tool`
(lines 220-233): walk the declared `parameters` array, and for each dict
entry whose `name` is a supplied argument, place the argument's value in
the query, path, or header bucket according to the declared `in`
(defaulting to `query`); entries that are not dicts, have a non-string
(or missing) name, an unsupplied name, or an unrecognized `in` value are
skipped (their arguments go nowhere). -/
def difyRoute (args : List (String × Json)) :
    List Json →
    List (String × Json) × List (String × Json) × List (String × Json) →
    List (String × Json) × List (String × Json) × List (String × Json)
  | [], acc => acc
  | p :: rest, (q, pa, hd) =>
    match p with
    | .obj pm =>
      (match getKey pm "name" with
       | some (.str n) =>
         (match getKey args n with
          | some v =>
            let inloc := (getKey pm "in").getD (.str "query")
            if eqStr "query" inloc then difyRoute args rest (setKey q n v, pa, hd)
            else if eqStr "path" inloc then difyRoute args rest (q, setKey pa n v, hd)
            else if eqStr "header" inloc then difyRoute args rest (q, pa, setKey hd n v)
            else difyRoute args rest (q, pa, hd)
          | none => difyRoute args rest (q, pa, hd))
       | _ => difyRoute args rest (q, pa, hd))
    | _ => difyRoute args rest (q, pa, hd)

end Json

/-- The request formed by `dify_mcp_standalone.call_superior_tool` for one
resolved tool (lines 203-260): for `GET`/`DELETE` with a declared (truthy)
`parameters` array, route arguments into the three buckets; for
`POST`/`PUT`/`PATCH`, all arguments become the body.  Headers are the
token/content-type pair updated with the header bucket; `{name}`
placeholders in the URL are replaced by `str(value)` for each path-bucket
entry.  The query bucket is passed only for `GET` — a `DELETE` dispatch
goes through `session.request(..., json=body_params)` and silently drops
it. -/
def difyBuildRequest (token : String) (args : List (String × Json)) (t : DifyTool) :
    Except PyErr HttpRequest :=
  let routeRes : Except PyErr
      (List (String × Json) × List (String × Json) × List (String × Json)) :=
    if t.method = "GET" ∨ t.method = "DELETE" then
      match Json.pyIn "parameters" t.originalSpec with
      | .error e => .error e
      | .ok true =>
        (match t.originalSpec with
         | .obj sm =>
           let pl := (Json.getKey sm "parameters").getD (.arr [])
           if Json.pyTruthy pl then
             match Json.pyIter pl with
             | .error e => .error e
             | .ok items => .ok (Json.difyRoute args items ([], [], []))
           else .ok ([], [], [])
         | _ => .error .attributeError)
      | .ok false => .ok ([], [], [])
    else .ok ([], [], [])
  let bodyParams : List (String × Json) :=
    if t.method = "POST" ∨ t.method = "PUT" ∨ t.method = "PATCH" then args else []
  match routeRes with
  | .error e => .error e
  | .ok (q, pa, hd) =>
    .ok { method := t.method
        , url := pa.foldl (fun (u : String) kv =>
            Json.pyReplace u ("\x7b" ++ kv.1 ++ "\x7d") (Json.pyStr kv.2)) t.url
        , query := if t.method = "GET" then q else []
        , headers := hd.foldl (fun acc kv => Json.setKey acc kv.1 kv.2)
            [("token", .str token), ("Content-Type", .str "application/json")]
        , body := if t.method = "GET" then none else some (.obj bodyParams) }

/-- Tool resolution of `dify_mcp_standalone.call_superior_tool`
(lines 193-201): first tool whose `name` equals the requested name;
`none` = the `"Tool not found"` error result, no request dispatched. -/
def callRequestDify (token : String) (toolName : String) (args : List (String × Json))
    (tools : List DifyTool) : Option (Except PyErr HttpRequest) :=
  match tools.find? (fun t => Json.eqStr toolName t.name) with
  | none => none
  | some t => some (difyBuildRequest token args t)

namespace Json

theorem difyRoute_preserve (args : List (String × Json)) (ps : List Json)
    (q pa hd : List (String × Json)) {n : String} {v : Json}
    (hv : getKey args n = some v) :
    (getKey q n = some v → getKey (difyRoute args ps (q, pa, hd)).1 n = some v) ∧
    (getKey pa n = some v → getKey (difyRoute args ps (q, pa, hd)).2.1 n = some v) ∧
    (getKey hd n = some v → getKey (difyRoute args ps (q, pa, hd)).2.2 n = some v) := by
  induction ps generalizing q pa hd with
  | nil => exact ⟨fun h => h, fun h => h, fun h => h⟩
  | cons p rest ih =>
    have step : ∀ (bq bpa bhd : List (String × Json)) (n' : String) (v' : Json),
        getKey args n' = some v' →
        (getKey bq n = some v → getKey (setKey bq n' v') n = some v) := by
      intro bq _ _ n' v' hv'
      intro hq
      by_cases he : n = n'
      · subst he
        rw [hv] at hv'
        cases hv'
        exact getKey_setKey_same _ _ _
      · rw [getKey_setKey_ne _ _ he]
        exact hq
    simp only [difyRoute]
    cases p with
    | obj pm =>
      simp only []
      cases hn : getKey pm "name" with
      | none => simp only []; exact ih q pa hd
      | some nv =>
        cases nv with
        | str n' =>
          simp only []
          cases ha : getKey args n' with
          | none => simp only []; exact ih q pa hd
          | some v' =>
            simp only []
            by_cases h1 : eqStr "query" ((getKey pm "in").getD (.str "query")) = true
            · simp only [h1, if_true]
              refine ⟨fun hq => (ih (setKey q n' v') pa hd).1 (step q pa hd n' v' ha hq),
                (ih (setKey q n' v') pa hd).2.1, (ih (setKey q n' v') pa hd).2.2⟩
            · simp only [Bool.not_eq_true] at h1
              simp only [h1, Bool.false_eq_true, if_false]
              by_cases h2 : eqStr "path" ((getKey pm "in").getD (.str "query")) = true
              · simp only [h2, if_true]
                refine ⟨(ih q (setKey pa n' v') hd).1,
                  fun hp => (ih q (setKey pa n' v') hd).2.1 (step pa q hd n' v' ha hp),
                  (ih q (setKey pa n' v') hd).2.2⟩
              · simp only [Bool.not_eq_true] at h2
                simp only [h2, Bool.false_eq_true, if_false]
                by_cases h3 : eqStr "header" ((getKey pm "in").getD (.str "query")) = true
                · simp only [h3, if_true]
                  refine ⟨(ih q pa (setKey hd n' v')).1, (ih q pa (setKey hd n' v')).2.1,
                    fun hh => (ih q pa (setKey hd n' v')).2.2 (step hd q pa n' v' ha hh)⟩
                · simp only [Bool.not_eq_true] at h3
                  simp only [h3, Bool.false_eq_true, if_false]
                  exact ih q pa hd
        | «null» => simp only []; exact ih q pa hd
        | bool b => simp only []; exact ih q pa hd
        | num m => simp only []; exact ih q pa hd
        | arr es => simp only []; exact ih q pa hd
        | obj ms => simp only []; exact ih q pa hd
    | «null» => simp only []; exact ih q pa hd
    | bool b => simp only []; exact ih q pa hd
    | num m => simp only []; exact ih q pa hd
    | str s => simp only []; exact ih q pa hd
    | arr es => simp only []; exact ih q pa hd

end Json

namespace Json

theorem difyRoute_cons_exists (args : List (String × Json)) (p : Json)
    (rest : List Json) (q pa hd : List (String × Json)) :
    ∃ q' pa' hd', difyRoute args (p :: rest) (q, pa, hd) =
      difyRoute args rest (q', pa', hd') := by
  simp only [difyRoute]
  cases p with
  | obj pm =>
    simp only []
    cases hn : getKey pm "name" with
    | none => exact ⟨q, pa, hd, rfl⟩
    | some nv =>
      cases nv with
      | str n' =>
        simp only []
        cases ha : getKey args n' with
        | none => exact ⟨q, pa, hd, rfl⟩
        | some v' =>
          simp only []
          by_cases h1 : eqStr "query" ((getKey pm "in").getD (.str "query")) = true
          · simp only [h1, if_true]
            exact ⟨_, _, _, rfl⟩
          · simp only [Bool.not_eq_true] at h1
            simp only [h1, Bool.false_eq_true, if_false]
            by_cases h2 : eqStr "path" ((getKey pm "in").getD (.str "query")) = true
            · simp only [h2, if_true]
              exact ⟨_, _, _, rfl⟩
            · simp only [Bool.not_eq_true] at h2
              simp only [h2, Bool.false_eq_true, if_false]
              by_cases h3 : eqStr "header" ((getKey pm "in").getD (.str "query")) = true
              · simp only [h3, if_true]
                exact ⟨_, _, _, rfl⟩
              · simp only [Bool.not_eq_true] at h3
                simp only [h3, Bool.false_eq_true, if_false]
                exact ⟨q, pa, hd, rfl⟩
      | «null» => exact ⟨q, pa, hd, rfl⟩
      | bool b => exact ⟨q, pa, hd, rfl⟩
      | num m => exact ⟨q, pa, hd, rfl⟩
      | arr es => exact ⟨q, pa, hd, rfl⟩
      | obj ms => exact ⟨q, pa, hd, rfl⟩
  | «null» => exact ⟨q, pa, hd, rfl⟩
  | bool b => exact ⟨q, pa, hd, rfl⟩
  | num m => exact ⟨q, pa, hd, rfl⟩
  | str s => exact ⟨q, pa, hd, rfl⟩
  | arr es => exact ⟨q, pa, hd, rfl⟩

theorem difyRoute_mem (args : List (String × Json)) (ps : List Json)
    (q pa hd : List (String × Json)) {pm : List (String × Json)} {n : String} {v : Json}
    (hmem : Json.obj pm ∈ ps) (hn : getKey pm "name" = some (.str n))
    (hv : getKey args n = some v) :
    ((getKey pm "in" = none ∨ getKey pm "in" = some (.str "query")) →
      getKey (difyRoute args ps (q, pa, hd)).1 n = some v) ∧
    (getKey pm "in" = some (.str "path") →
      getKey (difyRoute args ps (q, pa, hd)).2.1 n = some v) ∧
    (getKey pm "in" = some (.str "header") →
      getKey (difyRoute args ps (q, pa, hd)).2.2 n = some v) := by
  induction ps generalizing q pa hd with
  | nil => simp at hmem
  | cons p rest ih =>
    rcases List.mem_cons.mp hmem with hph | htail
    · subst hph
      simp only [difyRoute]
      rw [hn]
      simp only []
      rw [hv]
      simp only []
      refine ⟨?_, ?_, ?_⟩
      · intro hin
        have hloc : (getKey pm "in").getD (.str "query") = .str "query" := by
          rcases hin with h | h <;> rw [h] <;> rfl
        rw [hloc]
        simp only [show eqStr "query" (Json.str "query") = true by decide, if_true]
        exact (difyRoute_preserve args rest _ pa hd hv).1 (getKey_setKey_same _ _ _)
      · intro hin
        rw [hin]
        simp only [Option.getD_some]
        simp only [show eqStr "query" (Json.str "path") = false by decide,
          Bool.false_eq_true, if_false,
          show eqStr "path" (Json.str "path") = true by decide, if_true]
        exact (difyRoute_preserve args rest q _ hd hv).2.1 (getKey_setKey_same _ _ _)
      · intro hin
        rw [hin]
        simp only [Option.getD_some]
        simp only [show eqStr "query" (Json.str "header") = false by decide,
          Bool.false_eq_true, if_false,
          show eqStr "path" (Json.str "header") = false by decide,
          show eqStr "header" (Json.str "header") = true by decide, if_true]
        exact (difyRoute_preserve args rest q pa _ hv).2.2 (getKey_setKey_same _ _ _)
    · obtain ⟨q', pa', hd', heq⟩ := difyRoute_cons_exists args p rest q pa hd
      rw [heq]
      exact ih q' pa' hd' htail

end Json

/-- Claim C1 counterexample: the HTTP/SSE servers' `call_superior_api_tool`
ignores the declared parameter locations.  A cached `GET` tool whose
original spec declares the parameter `h` with `in: header` receives the
supplied argument in the query string, not in the headers; and a cached
`DELETE` tool with a declared `in: query` parameter has its argument sent
as the JSON body with an empty query string. -/
theorem claim_C1_counterexample :
    (∃ req, callRequestSrv "tok1234567890" "t1" [("h", .str "v")]
        [⟨.str "t1", .str "", .obj [], "https://base", "/p", "GET", .str "pl",
          .obj [("parameters", .arr [.obj [("name", .str "h"),
            ("in", .str "header")]])]⟩] = some req ∧
      Json.getKey req.query "h" = some (.str "v") ∧
      Json.getKey req.headers "h" = none) ∧
    (∃ req, callRequestSrv "tok1234567890" "t2" [("city", .str "Taipei")]
        [⟨.str "t2", .str "", .obj [], "https://base", "/q", "DELETE", .str "pl",
          .obj [("parameters", .arr [.obj [("name", .str "city"),
            ("in", .str "query")]])]⟩] = some req ∧
      req.query = [] ∧ req.body = some (.obj [("city", .str "Taipei")])) :=
  ⟨⟨_, rfl, rfl, rfl⟩, ⟨_, rfl, rfl, rfl⟩⟩

/-- Claim C1 amended: only `dify_mcp_standalone.call_superior_tool` routes
by declared location, and fully only for `GET`.  First part: a `GET` tool
with a declared non-empty `parameters` array dispatches a request whose
query string is the routing loop's query bucket, whose headers are the
base headers updated with the header bucket, and whose URL has each
path-bucket entry substituted for its `{name}` placeholder.  Second part:
the routing loop places each supplied argument that matches a declared
dict parameter with a string name into the query bucket (when `in` is
absent or `"query"`), the path bucket (`in: path`), or the header bucket
(`in: header`).  (For `DELETE` the same routing runs but the dispatch
passes only the body dict, dropping the query bucket; the HTTP/SSE
servers do no routing at all.) -/
theorem claim_C1_amended :
    (∀ (token : String) (args : List (String × Json)) (t : DifyTool)
        (sm : List (String × Json)) (pl : Json) (items : List Json),
      t.method = "GET" → t.originalSpec = .obj sm →
      Json.getKey sm "parameters" = some pl → Json.pyTruthy pl = true →
      Json.pyIter pl = .ok items →
      difyBuildRequest token args t = .ok
        { method := "GET"
        , url := (Json.difyRoute args items ([], [], [])).2.1.foldl
            (fun (u : String) kv =>
              Json.pyReplace u ("\x7b" ++ kv.1 ++ "\x7d") (Json.pyStr kv.2)) t.url
        , query := (Json.difyRoute args items ([], [], [])).1
        , headers := (Json.difyRoute args items ([], [], [])).2.2.foldl
            (fun acc kv => Json.setKey acc kv.1 kv.2)
            [("token", .str token), ("Content-Type", .str "application/json")]
        , body := none }) ∧
    (∀ (args : List (String × Json)) (ps : List Json) (pm : List (String × Json))
        (n : String) (v : Json),
      Json.obj pm ∈ ps → Json.getKey pm "name" = some (.str n) →
      Json.getKey args n = some v →
      ((Json.getKey pm "in" = none ∨ Json.getKey pm "in" = some (.str "query")) →
        Json.getKey (Json.difyRoute args ps ([], [], [])).1 n = some v) ∧
      (Json.getKey pm "in" = some (.str "path") →
        Json.getKey (Json.difyRoute args ps ([], [], [])).2.1 n = some v) ∧
      (Json.getKey pm "in" = some (.str "header") →
        Json.getKey (Json.difyRoute args ps ([], [], [])).2.2 n = some v)) := by
  constructor
  · intro token args t sm pl items ht hspec hpl htr hit
    simp only [difyBuildRequest, ht, hspec]
    simp only [Json.pyIn, Json.hasKey, hpl, Option.isSome_some]
    simp [htr, hit]
  · intro args ps pm n v hmem hn hv
    exact Json.difyRoute_mem args ps [] [] [] hmem hn hv

/-- Witness for C1 amended: a `GET` tool with three declared parameters
(query, path, header) and matching arguments — the dispatched request
carries the query argument in the query string, the path argument
substituted into the URL, and the header argument among the headers. -/
theorem claim_C1_witness :
    (difyBuildRequest "tok1234567890"
        [("q1", .str "qv"), ("p1", .str "pv"), ("h1", .str "hv")]
        ⟨.str "t1", .str "", .obj [], "https://base/x/\x7bp1\x7d", "GET", .str "pl",
          .obj [("parameters", .arr
            [.obj [("name", .str "q1")],
             .obj [("name", .str "p1"), ("in", .str "path")],
             .obj [("name", .str "h1"), ("in", .str "header")]])]⟩ = .ok
        { method := "GET"
        , url := "https://base/x/pv"
        , query := [("q1", .str "qv")]
        , headers := [("token", .str "tok1234567890"),
            ("Content-Type", .str "application/json"), ("h1", .str "hv")]
        , body := none }) ∧
    Json.getKey [("q1", Json.str "qv")] "q1" = some (.str "qv") := by
  constructor
  · have h := claim_C1_amended.1 "tok1234567890"
      [("q1", .str "qv"), ("p1", .str "pv"), ("h1", .str "hv")]
      ⟨.str "t1", .str "", .obj [], "https://base/x/\x7bp1\x7d", "GET", .str "pl",
        .obj [("parameters", .arr
          [.obj [("name", .str "q1")],
           .obj [("name", .str "p1"), ("in", .str "path")],
           .obj [("name", .str "h1"), ("in", .str "header")]])]⟩
      [("parameters", .arr
        [.obj [("name", .str "q1")],
         .obj [("name", .str "p1"), ("in", .str "path")],
         .obj [("name", .str "h1"), ("in", .str "header")]])]
      (.arr [.obj [("name", .str "q1")],
        .obj [("name", .str "p1"), ("in", .str "path")],
        .obj [("name", .str "h1"), ("in", .str "header")]])
      [.obj [("name", .str "q1")],
        .obj [("name", .str "p1"), ("in", .str "path")],
        .obj [("name", .str "h1"), ("in", .str "header")]]
      rfl rfl rfl (by decide) rfl
    rw [h]
    rfl
  · rfl

/-- The token-bearing parts of an inbound HTTP request.  Starlette header
lookups are case-insensitive, so the source's separate
`headers.get("token")` and `headers.get("TOKEN")` reads both see the one
`token` header modelled by `headerToken`. -/
structure ReqInfo where
  queryToken : Option String
  headerToken : Option String
  authorization : Option String
  xApiKey : Option String
  apiKey : Option String
deriving Repr

/-- Python's `a or b or ...` over optional strings: the first truthy
(non-`None`, non-empty) operand, else the final operand's own value. -/
def pyOrStr : List (Option String) → Option String
  | [] => none
  | [x] => x
  | x :: rest =>
    match x with
    | some s => if s ≠ "" then some s else pyOrStr rest
    | none => pyOrStr rest

/-- `extract_token` of `mcp_server_http.py` (lines 240-259) and
`mcp_server_sse.py` (lines 392-415), which are identical: the `or` chain
checks the `token` QUERY PARAMETER FIRST, then the `token` / `TOKEN`
headers, then `Authorization` with all `"Bearer "` / `"bearer "`
substrings removed, then `X-API-Key`, then `api-key`. -/
def extractTokenSrv (r : ReqInfo) : Option String :=
  pyOrStr [r.queryToken, r.headerToken, r.headerToken,
    some (Json.pyReplace (Json.pyReplace (r.authorization.getD "") "Bearer " "")
      "bearer " ""),
    r.xApiKey, r.apiKey]

/-- `extract_token` of `dify_mcp_standalone.py` (lines 49-71): the `token`
header first, then `Authorization: Bearer <token>` (strict prefix,
returning the remainder), then the `token` query parameter; `none` models
the final `HTTPException 401`. -/
def extractTokenDify (r : ReqInfo) : Option String :=
  match r.headerToken with
  | some t =>
    if t ≠ "" then some t
    else extractTokenDifyRest r
  | none => extractTokenDifyRest r
where
  extractTokenDifyRest (r : ReqInfo) : Option String :=
    let auth := r.authorization.getD ""
    if Json.pyStartsWith "Bearer " auth then some (Json.pyDrop 7 auth)
    else
      match r.queryToken with
      | some t => if t ≠ "" then some t else none
      | none => none

/-- Claim C8 counterexample: in the HTTP and SSE servers' `extract_token`,
when both a `token` header and a `token` query parameter are present, the
QUERY PARAMETER wins — the header value is not the one used. -/
theorem claim_C8_counterexample :
    extractTokenSrv ⟨some "querytokenvalue", some "headertokenvalue", none, none, none⟩ =
      some "querytokenvalue" ∧ "querytokenvalue" ≠ "headertokenvalue" :=
  ⟨rfl, by decide⟩

/-- Claim C8 amended: the claimed precedence — `token` header first, then
`Authorization: Bearer`, then the `token` query parameter, first non-empty
match winning — is the order of `dify_mcp_standalone.extract_token` only.
In particular a non-empty token header wins over everything; with no
usable header, a `Bearer` authorization wins over the query parameter;
with neither, a non-empty query parameter is used. -/
theorem claim_C8_amended (r : ReqInfo) :
    (∀ t, r.headerToken = some t → t ≠ "" → extractTokenDify r = some t) ∧
    ((r.headerToken = none ∨ r.headerToken = some "") →
      ∀ a, r.authorization = some a → Json.pyStartsWith "Bearer " a = true →
      extractTokenDify r = some (Json.pyDrop 7 a)) ∧
    ((r.headerToken = none ∨ r.headerToken = some "") →
      (r.authorization = none ∨
        ∀ a, r.authorization = some a → Json.pyStartsWith "Bearer " a = false) →
      ∀ t, r.queryToken = some t → t ≠ "" → extractTokenDify r = some t) := by
  refine ⟨?_, ?_, ?_⟩
  · intro t ht hne
    unfold extractTokenDify
    rw [ht]
    simp [hne]
  · intro hh a ha hb
    unfold extractTokenDify
    rcases hh with h | h <;> rw [h] <;>
      simp [extractTokenDify.extractTokenDifyRest, ha, hb]
  · intro hh hauth t ht hne
    unfold extractTokenDify
    have hrest : extractTokenDify.extractTokenDifyRest r = some t := by
      unfold extractTokenDify.extractTokenDifyRest
      rcases hauth with h | h
      · simp [h, ht, hne, Json.pyStartsWith]
      · cases hao : r.authorization with
        | none => simp [hao, ht, hne, Json.pyStartsWith]
        | some a => simp [hao, h a hao, ht, hne]
    rcases hh with h | h <;> rw [h] <;> simpa using hrest
  
/-- Witness for C8 amended: a request carrying both a token header and a
query token resolves to the header value under
`dify_mcp_standalone.extract_token`. -/
theorem claim_C8_witness :
    extractTokenDify ⟨some "querytokenvalue", some "headertokenvalue", none, none, none⟩ =
      some "headertokenvalue" :=
  (claim_C8_amended ⟨some "querytokenvalue", some "headertokenvalue", none, none, none⟩).1
    "headertokenvalue" rfl (by decide)

/-- JSON serialization of a cached Tool Descriptor, as `JSONResponse`
would encode the dicts built by `fetch_superior_apis_tools`
(mcp_server_http.py lines 509-520). -/
def srvToolToJson (t : SrvTool) : Json :=
  .obj [("name", t.name), ("description", t.description),
    ("inputSchema", t.inputSchema),
    ("_meta", .obj [("base_url", .str t.baseUrl), ("path", .str t.path),
      ("method", .str t.method), ("plugin_name", t.pluginName),
      ("original_spec", t.originalSpec)])]

/-- The `tools/list` result of the HTTP server's `handle_tools_list`
(mcp_server_http.py lines 836-848): each cached descriptor is projected to
the `name` / `description` / `inputSchema` triple. -/
def toolsListResultHTTP (tools : List SrvTool) : Json :=
  .obj [("tools", .arr (tools.map (fun t =>
    .obj [("name", t.name), ("description", t.description),
      ("inputSchema", t.inputSchema)])))]

/-- The `tools/list` result of the SSE server's `handle_mcp_messages`
(mcp_server_sse.py lines 866-878): the cached descriptors are returned
VERBATIM — `"result": {"tools": tools}` — with no projection. -/
def toolsListResultSSE (tools : List SrvTool) : Json :=
  .obj [("tools", .arr (tools.map srvToolToJson))]

/-- Claim C3 counterexample: the SSE server's `tools/list` leaks `_meta`.
For a concrete cached descriptor, the serialized listing entry carries the
`_meta` key (with base URL, path, method, plugin name and original spec),
falsifying "the internal _meta field is never included in the listing sent
to the client". -/
theorem claim_C3_counterexample :
    toolsListResultSSE [⟨.str "t1", .str "d", .obj [("type", .str "object")],
      "https://base", "/p", "GET", .str "pl", .obj [("summary", .str "s")]⟩] =
    .obj [("tools", .arr [.obj [("name", .str "t1"), ("description", .str "d"),
      ("inputSchema", .obj [("type", .str "object")]),
      ("_meta", .obj [("base_url", .str "https://base"), ("path", .str "/p"),
        ("method", .str "GET"), ("plugin_name", .str "pl"),
        ("original_spec", .obj [("summary", .str "s")])])]])] ∧
    Json.hasKey [("name", Json.str "t1"), ("description", Json.str "d"),
      ("inputSchema", Json.obj [("type", Json.str "object")]),
      ("_meta", Json.obj [("base_url", Json.str "https://base"),
        ("path", Json.str "/p"), ("method", Json.str "GET"),
        ("plugin_name", Json.str "pl"),
        ("original_spec", Json.obj [("summary", Json.str "s")])])] "_meta" = true :=
  ⟨rfl, rfl⟩

/-- Claim C3 amended: the projection to exactly the public
`{name, description, inputSchema}` triple, with `_meta` dropped, holds in
the HTTP server's `handle_tools_list`: every entry of its `tools/list`
result is a dict with exactly those three keys, in that order. -/
theorem claim_C3_amended (tools : List SrvTool) :
    ∃ entries : List Json,
      toolsListResultHTTP tools = .obj [("tools", .arr entries)] ∧
      entries.length = tools.length ∧
      ∀ e ∈ entries, ∃ ms, e = .obj ms ∧
        Json.keysOf ms = ["name", "description", "inputSchema"] := by
  refine ⟨_, rfl, by simp, ?_⟩
  intro e he
  simp only [List.mem_map] at he
  obtain ⟨t, _, rfl⟩ := he
  exact ⟨_, rfl, rfl⟩

namespace Json

/-- Discriminator for dict values. -/
def isObj : Json → Bool
  | .obj _ => true
  | _ => false

end Json

/-- A validated `MCPRequest` (mcp_server_http.py lines 102-123): pydantic
model with required string `method`, `jsonrpc` defaulting to `"2.0"`,
optional `id` (any JSON; absent and `null` both surface as `null`), and
optional dict `params`. -/
structure MCPRequest where
  jsonrpc : String
  id : Json
  method : String
  params : Option (List (String × Json))
deriving Repr

/-- `MCPRequest(**item)`: fails (`TypeError`) on a non-dict item, and
(`ValidationError`, here folded into `typeError`) on a missing or
non-string `method`, a non-string `jsonrpc`, or a non-dict non-null
`params`; extra keys are ignored. -/
def parseMCPRequest (item : Json) : Except PyErr MCPRequest :=
  match item with
  | .obj ms =>
    (match Json.getKey ms "method" with
     | some (.str m) =>
       (match (match Json.getKey ms "jsonrpc" with
               | none => Except.ok "2.0"
               | some (.str s) => Except.ok s
               | some _ => Except.error PyErr.typeError) with
        | .error e => .error e
        | .ok j =>
          match Json.getKey ms "params" with
          | none => .ok ⟨j, (Json.getKey ms "id").getD .null, m, none⟩
          | some .null => .ok ⟨j, (Json.getKey ms "id").getD .null, m, none⟩
          | some (.obj pms) => .ok ⟨j, (Json.getKey ms "id").getD .null, m, some pms⟩
          | some _ => .error .typeError)
     | some _ => .error .typeError
     | none => .error .typeError)
  | _ => .error .typeError

/-- `create_jsonrpc_error` (mcp_server_http.py lines 334-357) without the
optional `data` field.  The human-readable part of the message (Python
interpolates `str(e)`) is abbreviated to a fixed label. -/
def jsonrpcErrorObj (id : Json) (code : Int) (message : String) : Json :=
  .obj [("jsonrpc", .str "2.0"), ("id", id),
    ("error", .obj [("code", .num code), ("message", .str message)])]

/-- One iteration of the HTTP server's batch loop (mcp_server_http.py
lines 695-703): validate the item and handle it (`handle` abstracts
`handle_mcp_request`, which catches its own exceptions and always returns
a response object); a validation failure is answered in place by a
`-32600` error carrying `item.get("id")` — which itself raises
`AttributeError` when the item is not a dict, escaping to the outer
handler (HTTP 500). -/
def mcpItemResponseHTTP (handle : MCPRequest → Json) (item : Json) : Except PyErr Json :=
  match parseMCPRequest item with
  | .ok req => .ok (handle req)
  | .error _ =>
    match item with
    | .obj ms => .ok (jsonrpcErrorObj ((Json.getKey ms "id").getD .null) (-32600)
        "Invalid Request")
    | _ => .error .attributeError

/-- The HTTP server's batch loop (mcp_server_http.py lines 691-704):
responses are accumulated in request order. -/
def mcpBatchHTTP (handle : MCPRequest → Json) : List Json → Except PyErr (List Json)
  | [] => .ok []
  | item :: rest =>
    match mcpItemResponseHTTP handle item with
    | .error e => .error e
    | .ok r =>
      match mcpBatchHTTP handle rest with
      | .error e => .error e
      | .ok rs => .ok (r :: rs)

/-- The per-item response of the batch loop restricted to dict items
(where it cannot escape). -/
def mcpItemResponseOk (handle : MCPRequest → Json) (item : Json) : Json :=
  match parseMCPRequest item with
  | .ok req => handle req
  | .error _ =>
    match item with
    | .obj ms => jsonrpcErrorObj ((Json.getKey ms "id").getD .null) (-32600)
        "Invalid Request"
    | _ => .null

/-- Body-shape behaviour of the SSE server's `handle_mcp_messages`
(mcp_server_sse.py lines 819-824 and 953-965): the handler starts with
`body.get("method")`, so a JSON-array body raises `AttributeError`; the
catch-all `except` then evaluates `body.get("id")`, which raises again
on the same list and escapes the handler — the client gets a framework
500, not an array of responses.  Dict bodies dispatch per method
(abstracted by `dispatch`). -/
def sseMessagesShape (dispatch : List (String × Json) → Json) (body : Json) :
    Except PyErr Json :=
  match body with
  | .obj ms => .ok (dispatch ms)
  | _ => .error .attributeError

/-- Body-shape behaviour of `dify_mcp_standalone.mcp_endpoint`
(lines 277-383): `body.get("method", "")` on a non-dict body raises,
and the catch-all `except` responds with a SINGLE `-32603` error object
with `id: 1` (its message interpolates `str(e)`, abbreviated here). -/
def difyEndpointShape (dispatch : List (String × Json) → Json) (body : Json) : Json :=
  match body with
  | .obj ms => dispatch ms
  | _ => jsonrpcErrorObj (.num 1) (-32603) "AttributeError"

/-- Claim C9 counterexample: only the HTTP server has batch handling.  For
a well-formed two-request JSON-RPC batch, the SSE message endpoint crashes
out of its handler (framework 500 — no array of responses), and the Dify
endpoint answers with one `-32603` error object instead of an array;
neither processes the items. -/
theorem claim_C9_counterexample :
    sseMessagesShape (fun _ => .null)
      (.arr [.obj [("jsonrpc", .str "2.0"), ("id", .num 1), ("method", .str "initialize")],
             .obj [("jsonrpc", .str "2.0"), ("id", .num 2), ("method", .str "tools/list")]]) =
      .error .attributeError ∧
    difyEndpointShape (fun _ => .null)
      (.arr [.obj [("jsonrpc", .str "2.0"), ("id", .num 1), ("method", .str "initialize")],
             .obj [("jsonrpc", .str "2.0"), ("id", .num 2), ("method", .str "tools/list")]]) =
      jsonrpcErrorObj (.num 1) (-32603) "AttributeError" :=
  ⟨rfl, rfl⟩

/-- Claim C9 amended: the HTTP server's `mcp_endpoint` batch loop, on an
array whose items are all JSON objects, processes each item independently
and returns the responses in request order — the result is exactly the
positional map of the per-item response (a `-32600` error object in the
position of each malformed item).  An array containing a NON-dict item,
however, aborts the whole batch (the error-path `item.get("id")` raises),
and the SSE and Dify front-ends have no batch handling at all. -/
theorem claim_C9_amended (handle : MCPRequest → Json) (items : List Json)
    (hobj : ∀ it ∈ items, Json.isObj it = true) :
    mcpBatchHTTP handle items = .ok (items.map (mcpItemResponseOk handle)) ∧
    mcpBatchHTTP handle [.num 5] = .error .attributeError := by
  constructor
  · induction items with
    | nil => rfl
    | cons item rest ih =>
      have hitem : Json.isObj item = true := hobj item (by simp)
      have hrest := ih (fun it hit => hobj it (by simp [hit]))
      simp only [mcpBatchHTTP, List.map_cons]
      cases item with
      | obj ms =>
        simp only [mcpItemResponseHTTP, mcpItemResponseOk]
        cases hp : parseMCPRequest (.obj ms) with
        | ok req => rw [hrest]
        | error e => rw [hrest]
      | «null» => simp [Json.isObj] at hitem
      | bool b => simp [Json.isObj] at hitem
      | num n => simp [Json.isObj] at hitem
      | str s => simp [Json.isObj] at hitem
      | arr es => simp [Json.isObj] at hitem
  · rfl

/-- Witness for C9 amended: a two-item batch — a valid `initialize`
request followed by a malformed item (no `method`) — yields exactly the
handler response in position one and a `-32600` error (with that item's
id) in position two. -/
theorem claim_C9_witness :
    (∀ it ∈ [Json.obj [("jsonrpc", Json.str "2.0"), ("id", Json.num 1),
        ("method", Json.str "initialize")], Json.obj [("id", Json.num 2)]],
      Json.isObj it = true) ∧
    mcpBatchHTTP (fun _ => .str "handled")
      [Json.obj [("jsonrpc", Json.str "2.0"), ("id", Json.num 1),
        ("method", Json.str "initialize")], Json.obj [("id", Json.num 2)]] =
      .ok [.str "handled", jsonrpcErrorObj (.num 2) (-32600) "Invalid Request"] := by
  constructor
  · decide
  · have h := (claim_C9_amended (fun _ => .str "handled")
      [Json.obj [("jsonrpc", Json.str "2.0"), ("id", Json.num 1),
        ("method", Json.str "initialize")], Json.obj [("id", Json.num 2)]]
      (by decide)).1
    rw [h]
    rfl

/-! Heap-based model of `mcp_server_sse.flatten_enum`, used to examine its
effect on the CALLER'S object graph.  The value-level model above captures
the function's return value; Python dicts and lists, however, are mutable
objects with identity, and `flatten_enum` writes through them.  Scalars
are immutable values; dicts and lists live in a heap at numeric
addresses. -/

/-- A Python value: immutable scalar or reference to a heap object. -/
inductive HVal where
  | null
  | bool (b : Bool)
  | num (n : Int)
  | str (s : String)
  | ref (a : Nat)
deriving DecidableEq, Repr

/-- A heap object: a dict or a list. -/
inductive HObj where
  | dict (entries : List (String × HVal))
  | list (elems : List HVal)
deriving DecidableEq, Repr

/-- The object heap: address → object, plus the next fresh address. -/
structure Heap where
  objs : List (Nat × HObj)
  next : Nat
deriving DecidableEq, Repr

def nlookup : List (Nat × HObj) → Nat → Option HObj
  | [], _ => none
  | (a', o) :: t, a => if a' = a then some o else nlookup t a

def nset : List (Nat × HObj) → Nat → HObj → List (Nat × HObj)
  | [], a, o => [(a, o)]
  | (a', o') :: t, a, o => if a' = a then (a, o) :: t else (a', o') :: nset t a o

def hget (h : Heap) (a : Nat) : Option HObj := nlookup h.objs a

/-- In-place update of the object at an existing address — a Python
mutation. -/
def hset (h : Heap) (a : Nat) (o : HObj) : Heap := ⟨nset h.objs a o, h.next⟩

/-- Allocation of a fresh object (`dict.copy()`, literals). -/
def halloc (h : Heap) (o : HObj) : Heap × Nat :=
  (⟨h.objs ++ [(h.next, o)], h.next + 1⟩, h.next)

/-- Resolve a heap value to the `Json` tree it denotes (`none` when the
fuel is smaller than the object-graph depth). -/
def hToJson : Nat → Heap → HVal → Option Json
  | 0, _, _ => none
  | _ + 1, _, .null => some .null
  | _ + 1, _, .bool b => some (.bool b)
  | _ + 1, _, .num n => some (.num n)
  | _ + 1, _, .str s => some (.str s)
  | fuel + 1, h, .ref a =>
    match hget h a with
    | some (.dict kvs) =>
      (kvs.mapM (fun kv => (hToJson fuel h kv.2).map (fun j => (kv.1, j)))).map Json.obj
    | some (.list es) => (es.mapM (hToJson fuel h)).map Json.arr
    | none => none

mutual
/-- `mcp_server_sse.flatten_enum` (lines 105-140) over the heap, mirroring
each statement: non-dict input returned unchanged; `schema = schema.copy()`
allocates a SHALLOW copy (entries still reference the original's nested
objects); the root enum fold rewrites the copy's own entries; the
`properties` loop calls `schema['properties'][k] = flatten_enum(v)` — an
in-place write to the properties dict, which the copy SHARES with the
caller's original; `schema['items'] = flatten_enum(...)` rebinds only the
copy's entry.  Fuel-driven: fuel at least the object-graph depth suffices
(fuel exhaustion, impossible for acyclic inputs, reports `typeError`). -/
def hflattenSSE : Nat → Heap → HVal → Except PyErr (Heap × HVal)
  | 0, _, _ => .error .typeError
  | fuel + 1, h, v =>
    match v with
    | .ref a =>
      (match hget h a with
       | some (.dict kvs) =>
         let copyRes := halloc h (.dict kvs)
         let h1 := copyRes.1
         let aCopy := copyRes.2
         let foldRes : Except PyErr (Heap × List (String × HVal)) :=
           match alookup kvs "enum" with
           | none => .ok (h1, kvs)
           | some ev =>
             (match hToJson fuel h1 ev with
              | none => .error .typeError
              | some evj =>
                match Json.joinEnumSSE evj with
                | .error e => .error e
                | .ok joined =>
                  match (alookup kvs "description").getD (.str "") with
                  | .str cd =>
                    let kvs1 := aerase
                      (aset kvs "description" (.str (cd ++ " | Enum: " ++ joined))) "enum"
                    .ok (hset h1 aCopy (.dict kvs1), kvs1)
                  | _ => .error .typeError)
         match foldRes with
         | .error e => .error e
         | .ok (h2, kvs1) =>
           (match (match alookup kvs1 "properties" with
                   | none => Except.ok h2
                   | some (.ref pAddr) =>
                     (match hget h2 pAddr with
                      | some (.dict pkvs) => hflattenSSEPropsH fuel h2 pAddr pkvs
                      | _ => Except.error PyErr.attributeError)
                   | some _ => Except.error PyErr.attributeError) with
            | .error e => .error e
            | .ok h3 =>
              match alookup kvs1 "items" with
              | none => .ok (h3, .ref aCopy)
              | some iv =>
                match hflattenSSE fuel h3 iv with
                | .error e => .error e
                | .ok (h4, iv1) =>
                  match hget h4 aCopy with
                  | some (.dict cur) =>
                    .ok (hset h4 aCopy (.dict (aset cur "items" iv1)), .ref aCopy)
                  | _ => .error .typeError)
       | some (.list _) => .ok (h, v)
       | none => .error .typeError)
    | _ => .ok (h, v)

/-- The `properties` loop over the heap: each property value is flattened
and written back into the dict at `pAddr` — the caller's own properties
dict. -/
def hflattenSSEPropsH : Nat → Heap → Nat → List (String × HVal) → Except PyErr Heap
  | 0, _, _, _ => .error .typeError
  | _ + 1, h, _, [] => .ok h
  | fuel + 1, h, pAddr, (k, v) :: rest =>
    match hflattenSSE fuel h v with
    | .error e => .error e
    | .ok (h1, v1) =>
      match hget h1 pAddr with
      | some (.dict cur) =>
        hflattenSSEPropsH fuel (hset h1 pAddr (.dict (aset cur k v1))) pAddr rest
      | _ => .error .attributeError
end

/-- C6: the Schema Flattener is NOT pure with respect to its input.
Executing the heap model of `mcp_server_sse.flatten_enum` (whose own
comment, line 121, announces a copy made to avoid modifying the original)
on the schema `\x7b"properties": \x7b"mode": \x7b"type": "string",
"enum": ["a", "b"], "description": "mode"\x7d\x7d\x7d` — the root dict at
address 0, its properties dict at address 1, the `mode` property at
address 2 — rewrites the dict at address 1 in place: `schema.copy()` is
shallow, so the copy's `properties` entry still references address 1, and
the loop's `schema['properties'][prop_name] = flatten_enum(prop_schema)`
(line 133) writes through it.  A caller holding the original root
afterwards reads the flattened property (`enum` gone, description folded)
instead of the value it stored, as the before/after renderings of
address 0 show.  (`mcp_server_http.flatten_enum` mutates even more
directly: lines 390-404 assign `properties[prop_name]`, `prop['description']`
and `prop.pop('enum', None)` on the shared nested dicts of its own shallow
copy, line 365.) -/
theorem claim_C6_mutation :
    hflattenSSE 10
      ⟨[(0, .dict [("properties", .ref 1)]),
        (1, .dict [("mode", .ref 2)]),
        (2, .dict [("type", .str "string"), ("enum", .ref 3), ("description", .str "mode")]),
        (3, .list [.str "a", .str "b"])], 4⟩ (.ref 0)
      = .ok (⟨[(0, .dict [("properties", .ref 1)]),
        (1, .dict [("mode", .ref 5)]),
        (2, .dict [("type", .str "string"), ("enum", .ref 3), ("description", .str "mode")]),
        (3, .list [.str "a", .str "b"]),
        (4, .dict [("properties", .ref 1)]),
        (5, .dict [("type", .str "string"), ("description", .str "mode | Enum: a, b")])], 6⟩,
        .ref 4) ∧
    hToJson 10
      ⟨[(0, .dict [("properties", .ref 1)]),
        (1, .dict [("mode", .ref 2)]),
        (2, .dict [("type", .str "string"), ("enum", .ref 3), ("description", .str "mode")]),
        (3, .list [.str "a", .str "b"])], 4⟩ (.ref 0)
      = some (.obj [("properties", .obj [("mode",
          .obj [("type", .str "string"), ("enum", .arr [.str "a", .str "b"]),
                ("description", .str "mode")])])]) ∧
    hToJson 10
      ⟨[(0, .dict [("properties", .ref 1)]),
        (1, .dict [("mode", .ref 5)]),
        (2, .dict [("type", .str "string"), ("enum", .ref 3), ("description", .str "mode")]),
        (3, .list [.str "a", .str "b"]),
        (4, .dict [("properties", .ref 1)]),
        (5, .dict [("type", .str "string"), ("description", .str "mode | Enum: a, b")])], 6⟩
      (.ref 0)
      = some (.obj [("properties", .obj [("mode",
          .obj [("type", .str "string"),
                ("description", .str "mode | Enum: a, b")])])]) := by
  refine ⟨rfl, rfl, rfl⟩
